import Mathlib

/-!
Verification development for the Doc-Dataset-converter repository.

The Python sources are shallowly embedded as executable Lean definitions:
  * `src/utils/cleaner.py`   -> the `cleanText` pipeline and its regex steps,
  * `src/utils/validator.py` -> `validateFile`,
  * `src/utils/formatter.py` -> `toCsv`, `toXml`, `createAiTrainingFormat`,
    `getStatistics`,
  * `src/app.py`             -> `extractTabularData`, `csvDecision`,
    `processBatch`,
  * `src/converters/*.py`    -> `pdfExtract`, `wordExtract`, `excelExtract`,
    `textExtract` over an `ExtractionRecord` structure of optional fields
    that models the Python result dictionaries.

Modelling conventions:
  * Character classes follow the ASCII meaning of the Python regexes
    (`[a-zA-Z]`, `\d`, `\s`, ...); `str.lower` is modelled on ASCII letters.
  * Scanning regex substitutions (`re.sub`) are implemented as left-to-right
    scans.  Where the recursion consumes a non-structural suffix the function
    takes a fuel argument; the fuel is instantiated with the input length
    (every step consumes at least one character, so it never runs out) which
    keeps every definition kernel-reducible.
  * The filesystem is abstracted as a map from paths to an optional size in
    bytes; library-level parse results are abstracted as `Except` inputs to
    the extractor functions.
-/

/-! ## Character model (ASCII semantics of the Python regexes) -/

/-- Python `\s` on the ASCII range: space, tab, newline, carriage return,
vertical tab, form feed. -/
def pyWhite (c : Char) : Bool :=
  c = ' ' || c = '\t' || c = '\n' || c = '\r' || c = '\x0b' || c = '\x0c'

/-- Regex class `[a-zA-Z]`. -/
def pyAlpha (c : Char) : Bool :=
  (65 ≤ c.toNat && c.toNat ≤ 90) || (97 ≤ c.toNat && c.toNat ≤ 122)

/-- Regex class `\d` (ASCII digits). -/
def pyDigit (c : Char) : Bool :=
  48 ≤ c.toNat && c.toNat ≤ 57

/-- Regex class `\w` (word character): `[a-zA-Z0-9_]`. -/
def wordChar (c : Char) : Bool :=
  pyAlpha c || pyDigit c || c = '_'

/-- Python `str.lower` on a single character, ASCII range. -/
def pyLower (c : Char) : Char :=
  if 65 ≤ c.toNat && c.toNat ≤ 90 then Char.ofNat (c.toNat + 32) else c

/-- The characters kept by the `remove_special_chars` step, whose regex
deletes `[^a-zA-Z0-9\s]`. -/
def keepSpecial (c : Char) : Bool :=
  pyAlpha c || pyDigit c || pyWhite c

/-- The single-character body class of the URL regex in
`DataCleaner.clean_text`:
`(?:[a-zA-Z]|[0-9]|[$-_@.&+]|[!*\\(\\),]|(?:%[0-9a-fA-F][0-9a-fA-F]))`.
`[$-_]` is the byte range 0x24..0x5F which subsumes `@.&+*\(),%` and the
digits used by the escaped-percent alternative, leaving letters, digits,
that range and `!`. -/
def urlChar (c : Char) : Bool :=
  pyAlpha c || pyDigit c || (36 ≤ c.toNat && c.toNat ≤ 95) || c = '!'

/-! ## Python `str.split()` (whitespace words) -/

/-- Accumulating splitter behind `pyWords`: splits on runs of whitespace and
drops empty pieces, like Python `str.split()` with no argument. -/
def pyWordsAux : List Char → List Char → List (List Char)
  | [], acc => if acc.isEmpty then [] else [acc.reverse]
  | c :: cs, acc =>
    if pyWhite c then
      if acc.isEmpty then pyWordsAux cs [] else acc.reverse :: pyWordsAux cs []
    else pyWordsAux cs (c :: acc)

/-- Python `s.split()`: the whitespace-separated words of `s`. -/
def pyWords (s : String) : List (List Char) :=
  pyWordsAux s.toList []

/-- `len(s.split())`, the word count used throughout the repository. -/
def wordCount (s : String) : Nat :=
  (pyWords s).length

/-! ## Cleaner (`src/utils/cleaner.py`) -/

/-- One pass of `re.sub(r'\s+', ' ', text)`: every maximal whitespace run
becomes a single space.  The boolean records whether the previous character
belonged to a run that was already replaced. -/
def squeezeAux : Bool → List Char → List Char
  | _, [] => []
  | prev, c :: cs =>
    if pyWhite c then
      if prev then squeezeAux true cs else ' ' :: squeezeAux true cs
    else c :: squeezeAux false cs

/-- `re.sub(r'\s+', ' ', text)`. -/
def squeeze (l : List Char) : List Char :=
  squeezeAux false l

/-- Python `str.strip()`: drop leading and trailing whitespace. -/
def pyStripChars (l : List Char) : List Char :=
  ((l.dropWhile pyWhite).reverse.dropWhile pyWhite).reverse

/-- The `remove_extra_spaces` step: `re.sub(r'\s+', ' ', t).strip()`. -/
def collapseWs (l : List Char) : List Char :=
  pyStripChars (squeeze l)

/-- After `http[s]?` the URL regex needs `://` followed by a nonempty greedy
run of `urlChar`; returns the rest of the input after the match. -/
def urlTail (l : List Char) : Option (List Char) :=
  match l with
  | ':' :: '/' :: '/' :: c :: rest =>
    if urlChar c then some (rest.dropWhile urlChar) else none
  | _ => none

/-- Anchored match of the URL regex `http[s]?://(...)+` at the head of the
input.  The optional `s` is tried greedily; the backtracking alternative
(skipping a present `s`) would have to match `:` against `s` and always
fails, so consuming a present `s` is faithful. -/
def urlMatch (l : List Char) : Option (List Char) :=
  match l with
  | 'h' :: 't' :: 't' :: 'p' :: 's' :: rest => urlTail rest
  | 'h' :: 't' :: 't' :: 'p' :: rest => urlTail rest
  | _ => none

/-- Scanning loop of `re.sub` for the URL regex: at each position try an
anchored match; on success drop the match and resume after it, otherwise
keep the character.  Fuel is the number of scan steps; each step consumes at
least one character. -/
def removeUrlsAux : Nat → List Char → List Char
  | 0, l => l
  | _ + 1, [] => []
  | n + 1, c :: cs =>
    match urlMatch (c :: cs) with
    | some rest => removeUrlsAux n rest
    | none => c :: removeUrlsAux n cs

/-- `re.sub(r'http[s]?://(...)+', '', text)`. -/
def removeUrls (l : List Char) : List Char :=
  removeUrlsAux l.length l

/-- Whether the leftmost-greedy match of `\S+@\S+` succeeds at the start of
a non-space run: the run must contain an `@` that is neither its first nor
its last character; the match then spans the whole run. -/
def emailRunMatches (run : List Char) : Bool :=
  ((run.drop 1).dropLast).contains '@'

/-- Scanning loop of `re.sub(r'\S+@\S+', '', text)`.  A match at a position
inside a non-space run exists exactly when one exists at the start of the
run, and it consumes the run up to the next whitespace. -/
def removeEmailsAux : Nat → List Char → List Char
  | 0, l => l
  | _ + 1, [] => []
  | n + 1, c :: cs =>
    if pyWhite c then c :: removeEmailsAux n cs
    else
      if emailRunMatches ((c :: cs).takeWhile (fun d => !pyWhite d)) then
        removeEmailsAux n ((c :: cs).dropWhile (fun d => !pyWhite d))
      else c :: removeEmailsAux n cs

/-- `re.sub(r'\S+@\S+', '', text)`. -/
def removeEmails (l : List Char) : List Char :=
  removeEmailsAux l.length l

/-- Consume exactly `k` ASCII digits. -/
def takeDigits : Nat → List Char → Option (List Char)
  | 0, l => some l
  | _ + 1, [] => none
  | k + 1, c :: cs => if pyDigit c then takeDigits k cs else none

/-- Consume an optional `[-.]` separator. -/
def optSep (l : List Char) : List Char :=
  match l with
  | c :: cs => if c = '-' || c = '.' then cs else c :: cs
  | [] => []

/-- The trailing `\b` of the phone regexes: the next character, if any, is
not a word character (the previous matched character is always a digit). -/
def boundaryOk (l : List Char) : Bool :=
  match l with
  | [] => true
  | c :: _ => !wordChar c

/-- Anchored match of `\d{3}[-.]?\d{3}[-.]?\d{4}\b`.  Skipping a present
separator would have to read it as a digit, so greedy separator consumption
is faithful to the backtracking search. -/
def phone1At (l : List Char) : Option (List Char) :=
  (takeDigits 3 l).bind fun l1 =>
    (takeDigits 3 (optSep l1)).bind fun l2 =>
      (takeDigits 4 (optSep l2)).bind fun l3 =>
        if boundaryOk l3 then some l3 else none

/-- Anchored match of `\d{10}\b`. -/
def phone2At (l : List Char) : Option (List Char) :=
  (takeDigits 10 l).bind fun r => if boundaryOk r then some r else none

/-- Scanning loop shared by both phone regexes.  `prevW` tracks whether the
previous character of the original string is a word character (the leading
`\b`); after a successful match the last consumed character is a digit, so
the flag becomes true. -/
def phoneScan (m : List Char → Option (List Char)) : Nat → Bool → List Char → List Char
  | 0, _, l => l
  | _ + 1, _, [] => []
  | n + 1, prevW, c :: cs =>
    if prevW then c :: phoneScan m n (wordChar c) cs
    else
      match m (c :: cs) with
      | some rest => phoneScan m n true rest
      | none => c :: phoneScan m n (wordChar c) cs

/-- The `remove_phone_numbers` step: the `NNN-NNN-NNNN` substitution
followed by the bare ten-digit substitution. -/
def removePhones (l : List Char) : List Char :=
  let l1 := phoneScan phone1At l.length false l
  phoneScan phone2At l1.length false l1

/-- The step `re.sub(r'[^a-zA-Z0-9\s]', '', t)` guarded by its flag. -/
def spStep (b : Bool) (l : List Char) : List Char :=
  if b then l.filter keepSpecial else l

/-- The step `re.sub(r'\d+', '', t)` (deleting every digit) guarded by its
flag. -/
def numStep (b : Bool) (l : List Char) : List Char :=
  if b then l.filter (fun c => !pyDigit c) else l

/-- The `t.lower()` step guarded by its flag. -/
def lowStep (b : Bool) (l : List Char) : List Char :=
  if b then l.map pyLower else l

/-- The cleaning options dictionary of `DataCleaner.clean_text`. -/
structure CleaningOptions where
  remove_extra_spaces : Bool
  remove_special_chars : Bool
  remove_numbers : Bool
  lowercase : Bool
  remove_urls : Bool
  remove_emails : Bool
  remove_phone_numbers : Bool
deriving DecidableEq, Repr

/-- `DataCleaner.clean_text(text, options)` with every option supplied:
the seven conditional substitutions in source order. -/
def cleanText (text : String) (o : CleaningOptions) : String :=
  let t0 := text.toList
  let t1 := if o.remove_urls then removeUrls t0 else t0
  let t2 := if o.remove_emails then removeEmails t1 else t1
  let t3 := if o.remove_phone_numbers then removePhones t2 else t2
  let t4 := spStep o.remove_special_chars t3
  let t5 := numStep o.remove_numbers t4
  let t6 := lowStep o.lowercase t5
  let t7 := if o.remove_extra_spaces then collapseWs t6 else t6
  String.mk t7

/-! ## Validator (`src/utils/validator.py`) -/

/-- Python `str.lower` (ASCII model). -/
def pyLowerStr (s : String) : String :=
  String.mk (s.toList.map pyLower)

/-- The extension produced by `os.path.splitext(path)[1]`: the suffix from
the last dot of the final path component, empty when that component has no
dot after its (possibly empty) leading run of dots. -/
def splitextExt (p : String) : String :=
  let bn := (p.toList.reverse.takeWhile (fun c => c ≠ '/')).reverse
  if (bn.dropWhile (fun c => c = '.')).contains '.' then
    String.mk ('.' :: (bn.reverse.takeWhile (fun c => c ≠ '.')).reverse)
  else ""

/-- `FileValidator.SUPPORTED_EXTENSIONS` in insertion order. -/
def supportedExtTable : List (String × String) :=
  [(".pdf", "PDF Document"),
   (".docx", "Word Document"),
   (".doc", "Word Document (Legacy)"),
   (".xlsx", "Excel Spreadsheet"),
   (".xls", "Excel Spreadsheet (Legacy)"),
   (".csv", "CSV File"),
   (".txt", "Text File")]

/-- Dictionary lookup in `SUPPORTED_EXTENSIONS`. -/
def lookupExt (e : String) : Option String :=
  (supportedExtTable.find? (fun kv => kv.1 == e)).map (fun kv => kv.2)

/-- `FileValidator.MAX_FILE_SIZE` (50 MiB). -/
def maxFileSize : Nat := 50 * 1024 * 1024

/-- The messages returned by `validate_file`, as a tagged type.  The
too-large message interpolates a float-formatted size
(`f"{file_size/(1024*1024):.2f}MB"`), so messages are modelled as
constructors carrying the interpolated data instead of as literal text. -/
inductive ValidationMsg where
  | fileDoesNotExist
  | unsupportedFileType (ext : String)
  | fileTooLarge (size : Nat)
  | fileIsEmpty
  | valid (label : String)
deriving DecidableEq, Repr

/-- `FileValidator.validate_file` over an abstract filesystem `fs` mapping
each existing path to its size in bytes: existence, extension
(lower-cased, in the supported table), oversize, emptiness, in that order,
first failure wins. -/
def validateFile (fs : String → Option Nat) (path : String) : Bool × ValidationMsg :=
  match fs path with
  | none => (false, ValidationMsg.fileDoesNotExist)
  | some size =>
    let ext := pyLowerStr (splitextExt path)
    match lookupExt ext with
    | none => (false, ValidationMsg.unsupportedFileType ext)
    | some label =>
      if size > maxFileSize then (false, ValidationMsg.fileTooLarge size)
      else if size = 0 then (false, ValidationMsg.fileIsEmpty)
      else (true, ValidationMsg.valid label)

/-! ## Extraction records (the dictionaries produced by the converters) -/

/-- One table as produced by the PDF/Word table extractors: the
page/index/count bookkeeping is omitted and only the grid of cell text is
kept, since every consumer in the repository reads only `data`. -/
structure PTable where
  data : List (List String)
deriving DecidableEq, Repr

/-- One entry of the `pages` list of a PDF record. -/
structure PageUnit where
  page_number : Nat
  text : String
  word_count : Nat
deriving DecidableEq, Repr

/-- One entry of the `paragraphs` list of a Word record. -/
structure ParaUnit where
  text : String
  style : String
  word_count : Nat
deriving DecidableEq, Repr

/-- One entry of the `lines` list of a plain-text record. -/
structure LineUnit where
  line_number : Nat
  text : String
deriving DecidableEq, Repr

/-- A row of tabular data: an ordered mapping from column name to cell
text (CSV rows, Excel record rows, rows zipped from a detected table). -/
abbrev TabRow := List (String × String)

/-- One entry of the `sheets` list of an Excel record.  The per-sheet
`statistics` dictionary (null counts, dtype labels, float summaries) is not
modelled; no consumer in the repository reads it. -/
structure SheetInfo where
  sheet_name : String
  rows : Nat
  columns : Nat
  column_names : List String
  data : List TabRow
  preview : List TabRow
deriving DecidableEq, Repr

/-- The normalized extraction record: one optional field per dictionary key
that any converter may produce.  `none` models an absent key. -/
structure ExtractionRecord where
  document_type : Option String := none
  full_text : Option String := none
  metadata : Option (List (String × String)) := none
  tables : Option (List PTable) := none
  data : Option (List TabRow) := none
  all_data : Option (List TabRow) := none
  pages : Option (List PageUnit) := none
  paragraphs : Option (List ParaUnit) := none
  lines : Option (List LineUnit) := none
  sheets : Option (List SheetInfo) := none
  sheet_names : Option (List String) := none
  headers : Option (List String) := none
  preview : Option (List TabRow) := none
  encoding : Option String := none
  total_pages : Option Nat := none
  total_paragraphs : Option Nat := none
  total_tables : Option Nat := none
  total_lines : Option Nat := none
  total_characters : Option Nat := none
  word_count : Option Nat := none
  total_rows : Option Nat := none
  total_columns : Option Nat := none
  total_sheets : Option Nat := none
  error : Option String := none
deriving DecidableEq, Repr

/-! ## Formatter (`src/utils/formatter.py`) -/

/-- JSON-serializable cell values, as passed to `DataFormatter.to_csv`. -/
inductive JVal where
  | s (v : String)
  | i (v : Int)
  | b (v : Bool)
  | null
  | arr (items : List JVal)
  | obj (fields : List (String × JVal))

/-- One hex digit, upper-case as produced by Python `\uXXXX` escapes
(json uses lower-case hex: use lower-case). -/
def hexDigit (n : Nat) : Char :=
  if n < 10 then Char.ofNat (48 + n) else Char.ofNat (87 + n)

/-- Four-digit lower-case hex, as in a `\uXXXX` escape. -/
def hex4 (n : Nat) : String :=
  String.mk [hexDigit (n / 4096 % 16), hexDigit (n / 256 % 16),
             hexDigit (n / 16 % 16), hexDigit (n % 16)]

/-- `json.dumps` escaping of one character with `ensure_ascii=True`. -/
def jsonEscapeChar (c : Char) : String :=
  if c = '"' then "\\\""
  else if c = '\\' then "\\\\"
  else if c = '\n' then "\\n"
  else if c = '\t' then "\\t"
  else if c = '\r' then "\\r"
  else if c = '\x08' then "\\b"
  else if c = '\x0c' then "\\f"
  else if c.toNat < 32 then "\\u" ++ hex4 c.toNat
  else if c.toNat < 127 then String.mk [c]
  else if c.toNat < 65536 then "\\u" ++ hex4 c.toNat
  else
    "\\u" ++ hex4 (55296 + (c.toNat - 65536) / 1024) ++
    "\\u" ++ hex4 (56320 + (c.toNat - 65536) % 1024)

/-- `json.dumps` of a string. -/
def jsonString (s : String) : String :=
  "\"" ++ String.join (s.toList.map jsonEscapeChar) ++ "\""

/-- Fueled body of `jsonDumps`; the fuel dominates the nesting depth. -/
def jsonDumpsF : Nat → JVal → String
  | 0, _ => ""
  | _ + 1, JVal.s v => jsonString v
  | _ + 1, JVal.i v => toString v
  | _ + 1, JVal.b true => "true"
  | _ + 1, JVal.b false => "false"
  | _ + 1, JVal.null => "null"
  | n + 1, JVal.arr items =>
    "[" ++ String.intercalate ", " (items.map (jsonDumpsF n)) ++ "]"
  | n + 1, JVal.obj fields =>
    "\x7b" ++
      String.intercalate ", "
        (fields.map (fun kv => jsonString kv.1 ++ ": " ++ jsonDumpsF n kv.2)) ++
    "\x7d"

/-- Total size of a JSON value, used as a fuel bound for serialization
(it strictly dominates the nesting depth). -/
def jvalSize : JVal → Nat
  | JVal.arr [] => 1
  | JVal.arr (v :: rest) => jvalSize v + jvalSize (JVal.arr rest) + 1
  | JVal.obj [] => 1
  | JVal.obj ((_, v) :: rest) => jvalSize v + jvalSize (JVal.obj rest) + 1
  | _ => 1

/-- `json.dumps(v)` with the default separators, as used for nested cell
values in `to_csv`.  `jvalSize v` strictly dominates the nesting depth, so
the fuel never runs out. -/
def jsonDumps (v : JVal) : String :=
  jsonDumpsF (jvalSize v + 1) v

/-- A row argument of `to_csv`: an ordered string-keyed mapping. -/
abbrev CsvRow := List (String × JVal)

/-- The keys of a row, in insertion order (`list(row.keys())`). -/
def rowKeys (row : CsvRow) : List String :=
  row.map (fun kv => kv.1)

/-- Dictionary lookup in a row. -/
def lookupRow (row : CsvRow) (k : String) : Option JVal :=
  (row.find? (fun kv => kv.1 == k)).map (fun kv => kv.2)

/-- The per-cell cleaning of `to_csv`:
`json.dumps(v) if isinstance(v, (dict, list)) else v`. -/
def cleanCell : JVal → JVal
  | JVal.obj fields => JVal.s (jsonDumps (JVal.obj fields))
  | JVal.arr items => JVal.s (jsonDumps (JVal.arr items))
  | v => v

/-- How `csv.writer` renders a cell value as text: `str(value)` except that
`None` becomes the empty string.  The `obj`/`arr` cases are unreachable
after `cleanCell`. -/
def cellStr : JVal → String
  | JVal.s v => v
  | JVal.i v => toString v
  | JVal.b true => "True"
  | JVal.b false => "False"
  | JVal.null => ""
  | JVal.arr _ => ""
  | JVal.obj _ => ""

/-- The value returned by `to_csv` as a tagged type: `noData` stands for
the string `"No data to convert to CSV"`, `errorCreating fields` for
`"Error creating CSV: dict contains fields not in fieldnames: ..."` (the
`ValueError` raised by `csv.DictWriter` on rows with keys outside the
header), and `outPath p` for the output path. -/
inductive CsvReturn where
  | noData
  | errorCreating (fields : List String)
  | outPath (p : String)
deriving DecidableEq, Repr

/-- The CSV file written by `to_csv`: the header row and the body rows. -/
structure CsvFile where
  header : List String
  body : List (List String)
deriving DecidableEq, Repr

/-- The row-writing loop of `to_csv`: each row is cleaned and written via
`csv.DictWriter`, which raises on keys outside `fieldnames` and fills
missing keys with its default `restval` of the empty string.  Returns the
rows written before any failure together with the offending extra keys when
a failure occurred. -/
def writeRowsAcc (fieldnames : List String) : List CsvRow → List (List String) × Option (List String)
  | [] => ([], none)
  | row :: rest =>
    if ((rowKeys row).filter (fun k => !fieldnames.contains k)).isEmpty then
      ((fieldnames.map (fun k =>
          match lookupRow row k with
          | some v => cellStr (cleanCell v)
          | none => "")) :: (writeRowsAcc fieldnames rest).1,
        (writeRowsAcc fieldnames rest).2)
    else ([], some ((rowKeys row).filter (fun k => !fieldnames.contains k)))

/-- `DataFormatter.to_csv(rows, path)`: the returned value paired with the
file contents written to `path` (`none` when nothing is written). -/
def toCsv (rows : List CsvRow) (path : String) : CsvReturn × Option CsvFile :=
  match rows with
  | [] => (CsvReturn.noData, none)
  | r0 :: rest =>
    match (writeRowsAcc (rowKeys r0) (r0 :: rest)).2 with
    | some fields =>
      (CsvReturn.errorCreating fields,
        some ⟨rowKeys r0, (writeRowsAcc (rowKeys r0) (r0 :: rest)).1⟩)
    | none =>
      (CsvReturn.outPath path,
        some ⟨rowKeys r0, (writeRowsAcc (rowKeys r0) (r0 :: rest)).1⟩)

/-- Values that can appear in the dictionary handed to `to_xml`.  A scalar
carries the text Python interpolates for it (`f"...{value}..."`). -/
inductive XVal where
  | scalar (s : String)
  | dict (d : List (String × XVal))
  | list (items : List XVal)

/-- A dictionary handed to `to_xml`. -/
abbrev XDict := List (String × XVal)

/-- Total size of an `XVal`, the fuel bound for the XML renderer. -/
def xvalSize : XVal → Nat
  | XVal.scalar _ => 1
  | XVal.dict [] => 1
  | XVal.dict ((_, v) :: rest) => xvalSize v + xvalSize (XVal.dict rest) + 1
  | XVal.list [] => 1
  | XVal.list (v :: rest) => xvalSize v + xvalSize (XVal.list rest) + 1

/-- Total size of an `XDict`. -/
def xdictSize (d : XDict) : Nat :=
  xvalSize (XVal.dict d)

/-- The tag-name sanitization of `to_xml` and `dict_to_xml_helper`:
`key.replace(' ', '_').replace('-', '_')`.  Both patterns are single
characters, so the chained replaces equal this per-character map. -/
def safeKey (k : String) : String :=
  String.mk (k.toList.map (fun c => if c = ' ' || c = '-' then '_' else c))

/-- `"  " * indent_level`. -/
def indentStr : Nat → String
  | 0 => ""
  | n + 1 => "  " ++ indentStr n

/-- Fueled rendering of `DataFormatter.dict_to_xml_helper(d, tag,
indent_level)`.  The fuel dominates the nesting depth. -/
def xmlHelperF : Nat → XDict → String → Nat → String
  | 0, _, _, _ => ""
  | n + 1, d, tag, indentLevel =>
    let ind := indentStr indentLevel
    let body := d.foldl (fun acc kv =>
      let sk := safeKey kv.1
      match kv.2 with
      | XVal.dict inner =>
        acc ++ ind ++ "  " ++ xmlHelperF n inner sk (indentLevel + 1) ++ "\n"
      | XVal.list items =>
        acc ++ items.foldl (fun acc2 item =>
          match item with
          | XVal.dict inner =>
            acc2 ++ ind ++ "  " ++ xmlHelperF n inner sk (indentLevel + 1) ++ "\n"
          | XVal.scalar s =>
            acc2 ++ ind ++ "  " ++ "<" ++ sk ++ ">" ++ s ++ "</" ++ sk ++ ">\n"
          | XVal.list _ => acc2 ++ ind ++ "  " ++ "<" ++ sk ++ ">" ++ "</" ++ sk ++ ">\n") ""
      | XVal.scalar s =>
        acc ++ ind ++ "  " ++ "<" ++ sk ++ ">" ++ s ++ "</" ++ sk ++ ">\n") ""
    "<" ++ tag ++ ">\n" ++ body ++ ind ++ "</" ++ tag ++ ">"

/-- The body of the inner `dict_to_xml(d, root)` of `to_xml`: the
concatenated per-entry lines between the opening and closing root tags.
Nested dictionaries are rendered through the helper at indent level 2. -/
def dictToXmlBody (d : XDict) : String :=
  d.foldl (fun acc kv =>
    let sk := safeKey kv.1
    match kv.2 with
    | XVal.dict inner =>
      acc ++ "  " ++ xmlHelperF (xdictSize inner + 1) inner sk 2 ++ "\n"
    | XVal.list items =>
      acc ++ items.foldl (fun acc2 item =>
        match item with
        | XVal.dict inner =>
          acc2 ++ "  " ++ xmlHelperF (xdictSize inner + 1) inner sk 2 ++ "\n"
        | XVal.scalar s =>
          acc2 ++ "  " ++ "<" ++ sk ++ ">" ++ s ++ "</" ++ sk ++ ">\n"
        | XVal.list _ => acc2 ++ "  " ++ "<" ++ sk ++ ">" ++ "</" ++ sk ++ ">\n") ""
    | XVal.scalar s =>
      acc ++ "  " ++ "<" ++ sk ++ ">" ++ s ++ "</" ++ sk ++ ">\n") ""

/-- The XML declaration emitted first by `to_xml`. -/
def xmlDecl : String := "<?xml version=\"1.0\" encoding=\"UTF-8\"?>"

/-- `DataFormatter.to_xml(data, root_name)` (default root `"document"`). -/
def toXml (d : XDict) (root : String := "document") : String :=
  xmlDecl ++ "\n" ++ "<" ++ root ++ ">\n" ++ dictToXmlBody d ++ "</" ++ root ++ ">"

/-- The `structured_data` slot of the AI training format: the tables list
when the `tables` key is present, else the `data` rows when present, else
the initial empty list. -/
inductive StructuredData where
  | tables (ts : List PTable)
  | rows (rs : List TabRow)
  | empty
deriving DecidableEq, Repr

/-- The `features` sub-dictionary of the AI training format. -/
structure AIFeatures where
  document_type : String
  word_count : Nat
  has_tables : Bool
  has_structure : Bool
deriving DecidableEq, Repr

/-- The dictionary produced by `create_ai_training_format`. -/
structure AIFormat where
  input_text : String
  metadata : List (String × String)
  features : AIFeatures
  structured_data : StructuredData
deriving DecidableEq, Repr

/-- `DataFormatter.create_ai_training_format(data)`. -/
def createAiTrainingFormat (r : ExtractionRecord) : AIFormat :=
  { input_text := r.full_text.getD ""
    metadata := r.metadata.getD []
    features :=
      { document_type := r.document_type.getD "unknown"
        word_count := wordCount (r.full_text.getD "")
        has_tables := r.tables.isSome && !(r.tables.getD []).isEmpty
        has_structure := r.pages.isSome || r.paragraphs.isSome }
    structured_data :=
      match r.tables with
      | some ts => StructuredData.tables ts
      | none =>
        match r.data with
        | some rs => StructuredData.rows rs
        | none => StructuredData.empty }

/-- The dictionary produced by `get_statistics`.  The `total_pages` /
`total_paragraphs` keys are optional; `total_paragraphs` is only added when
`total_pages` is absent (the `elif`). -/
structure Stats where
  document_type : String
  total_size : Nat
  text_length : Nat
  word_count : Nat
  has_tables : Bool
  table_count : Nat
  total_pages : Option Nat
  total_paragraphs : Option Nat
deriving DecidableEq, Repr

/-- `DataFormatter.get_statistics(data)`. -/
def getStatistics (r : ExtractionRecord) : Stats :=
  { document_type := r.document_type.getD "Unknown"
    total_size := 0
    text_length := (r.full_text.getD "").length
    word_count :=
      match r.full_text with
      | some t => wordCount t
      | none => 0
    has_tables := r.tables.isSome
    table_count := (r.tables.getD []).length
    total_pages := r.total_pages
    total_paragraphs :=
      match r.total_pages with
      | some _ => none
      | none => r.total_paragraphs }

/-! ## Orchestrator (`src/app.py`) -/

/-- `AIDataConverter._extract_tabular_data(data)`: the `data` key, else the
`all_data` key, else the first detected table with its first row as header
and the remaining rows zipped against it (only when the table grid has more
than one row), else nothing. -/
def extractTabularData (r : ExtractionRecord) : List TabRow :=
  match r.data with
  | some d => d
  | none =>
    match r.all_data with
    | some ad => ad
    | none =>
      match r.tables with
      | some (t :: _) =>
        match t.data with
        | h :: row1 :: rest => (row1 :: rest).map (fun row => h.zip row)
        | _ => []
      | _ => []

/-- Selection policy as worded by the specification (refinement reference
for `extractTabularData`): first matching rule wins — explicit tabular rows,
else the multi-sheet concatenation, else the first detected table with its
first row as header and the remaining rows zipped against it, else
nothing. -/
def tabularPolicySpec (r : ExtractionRecord) : List TabRow :=
  match r.data with
  | some d => d
  | none =>
    match r.all_data with
    | some ad => ad
    | none =>
      match r.tables with
      | some (t :: _) =>
        match t.data with
        | h :: rest => rest.map (fun row => h.zip row)
        | [] => []
      | _ => []

/-- Outcome of the CSV branch of `process_file`: either the rows handed to
`to_csv`, or the `"No tabular data found for CSV export"` failure with no
artifact produced. -/
inductive CsvDecision where
  | noTabularData
  | exportRows (rows : List TabRow)
deriving DecidableEq, Repr

/-- The `if csv_data: ... else: return "No tabular data found for CSV
export"` dispatch of `process_file` for `output_format == "CSV"`. -/
def csvDecision (r : ExtractionRecord) : CsvDecision :=
  match extractTabularData r with
  | [] => CsvDecision.noTabularData
  | rows => CsvDecision.exportRows rows

/-- `os.path.basename`. -/
def baseName (p : String) : String :=
  String.mk ((p.toList.reverse.takeWhile (fun c => c ≠ '/')).reverse)

/-- A processed batch entry: the uploaded file name together with the
`(status, output_path)` outcome of `process_file` for it (`none` models the
`None` download path returned on every failure). -/
abbrev BatchEntry := String × (String × Option String)

/-- Number of files counted as successful by the batch loop (those whose
`process_file` outcome carried an output path). -/
def successCount (files : List BatchEntry) : Nat :=
  (files.filter (fun f => f.2.2.isSome)).length

/-- Number of files counted as failed by the batch loop. -/
def failCount (files : List BatchEntry) : Nat :=
  (files.filter (fun f => f.2.2.isNone)).length

/-- The per-file detail lines accumulated by the batch loop, in upload
order. -/
def batchResults (files : List BatchEntry) : List String :=
  files.map (fun f =>
    match f.2.2 with
    | some _ => "[OK] " ++ baseName f.1
    | none => "[FAILED] " ++ baseName f.1 ++ ": " ++ f.2.1)

/-- `AIDataConverter.process_batch`: the summary markdown and the archive
path (`some` exactly when at least one file succeeded; the empty upload
returns `"No files uploaded"` with no archive). -/
def processBatch (files : List BatchEntry) : String × Option String :=
  match files with
  | [] => ("No files uploaded", none)
  | _ =>
    let summary :=
      "**Batch Processing Complete**\n\nSuccessful: " ++
        toString (successCount files) ++ "\nFailed: " ++
        toString (failCount files) ++ "\n\n**Details:**\n" ++
        String.intercalate "\n" (batchResults files)
    if successCount files > 0 then (summary, some "output/batch_output.zip")
    else (summary, none)

/-- The output-directory state threaded through the batch loop.  The
directory is persistent: `_ensure_output_dir` creates it once and nothing
ever clears it, so it starts with whatever artifacts `dir0` earlier runs
(single-file conversions, previous batches and their `batch_output.zip`)
left behind; each successful `process_file` call appends its artifact and
a failed call writes nothing. -/
def runBatchDir (dir0 : List String) (files : List BatchEntry) : List String :=
  files.foldl (fun dir f =>
    match f.2.2 with
    | some p => dir ++ [p]
    | none => dir) dir0

/-- The contents of `batch_output.zip`: `shutil.make_archive` snapshots the
whole output directory, so when at least one file succeeded the archive
holds the final directory state — prior runs' artifacts included; with no
success (or no upload) no archive is made. -/
def batchArchive (dir0 : List String) (files : List BatchEntry) : Option (List String) :=
  match files with
  | [] => none
  | _ =>
    if successCount files > 0 then some (runBatchDir dir0 files) else none

/-! ## Format extractors (`src/converters/*.py`)

Each `extract` wraps its whole body in `try/except Exception` and, on any
internal failure, returns the error dictionary instead of raising.  The
library-level parse outcome is abstracted as an `Except String` input: an
`error cause` input stands for an exception with message `cause` raised
anywhere inside the `try` block.  Totality of the Lean functions models
"never propagates an exception". -/

/-- The parse outcome consumed by `PDFConverter.extract`: per-page text
from PyMuPDF, the tables found by pdfplumber (its own failures already
degrade to an empty list inside `_extract_tables`), and the document
metadata with its `"N/A"` defaults applied. -/
structure PdfPayload where
  pageTexts : List String
  tables : List PTable
  metadata : List (String × String)

/-- `PDFConverter.extract`. -/
def pdfExtract : Except String PdfPayload → ExtractionRecord
  | Except.error cause =>
    { error := some ("Failed to extract PDF: " ++ cause)
      document_type := some "PDF" }
  | Except.ok p =>
    { document_type := some "PDF"
      total_pages := some p.pageTexts.length
      full_text := some (String.intercalate "\n\n" p.pageTexts)
      pages := some (p.pageTexts.enum.map (fun it =>
        { page_number := it.1 + 1, text := it.2, word_count := wordCount it.2 }))
      tables := some p.tables
      metadata := some p.metadata }

/-- The parse outcome consumed by `WordConverter.extract`: the raw
paragraph (text, style-name) pairs, the flattened tables, and the core
properties with `"N/A"` defaults applied. -/
structure WordPayload where
  paragraphs : List (String × String)
  tables : List PTable
  metadata : List (String × String)

/-- `WordConverter.extract`: keeps only paragraphs whose stripped text is
nonempty. -/
def wordExtract : Except String WordPayload → ExtractionRecord
  | Except.error cause =>
    { error := some ("Failed to extract Word document: " ++ cause)
      document_type := some "Word Document" }
  | Except.ok p =>
    let kept := p.paragraphs.filter (fun pr => !(pyStripChars pr.1.toList).isEmpty)
    { document_type := some "Word Document"
      total_paragraphs := some kept.length
      total_tables := some p.tables.length
      full_text := some (String.intercalate "\n\n" (kept.map (fun pr => pr.1)))
      paragraphs := some (kept.map (fun pr =>
        { text := pr.1, style := pr.2, word_count := wordCount pr.1 }))
      tables := some p.tables
      metadata := some p.metadata }

/-- One sheet of the workbook as loaded by pandas: its name, its column
names and its rows as records. -/
structure SheetPayload where
  name : String
  columnNames : List String
  records : List TabRow

/-- The parse outcome consumed by `ExcelConverter.extract`; `fileExt` is
the upper-cased extension reported by `get_metadata`. -/
structure ExcelPayload where
  sheets : List SheetPayload
  fileExt : String

/-- `ExcelConverter.extract`: one `SheetInfo` per sheet and the
concatenation of every sheet's rows as `all_data` (the per-sheet
`statistics` dictionary is not modelled; nothing in the repository reads
it). -/
def excelExtract : Except String ExcelPayload → ExtractionRecord
  | Except.error cause =>
    { error := some ("Failed to extract Excel file: " ++ cause)
      document_type := some "Excel Spreadsheet" }
  | Except.ok p =>
    { document_type := some "Excel Spreadsheet"
      total_sheets := some p.sheets.length
      sheet_names := some (p.sheets.map (fun sh => sh.name))
      sheets := some (p.sheets.map (fun sh =>
        { sheet_name := sh.name
          rows := sh.records.length
          columns := sh.columnNames.length
          column_names := sh.columnNames
          data := sh.records
          preview := sh.records.take 10 }))
      all_data := some ((p.sheets.map (fun sh => sh.records)).flatten)
      metadata := some [("file_type", "Excel Spreadsheet"), ("format", p.fileExt)] }

/-- The file body consumed by `TextConverter.extract` after the encoding
was detected: either plain text content or parsed CSV rows (the dispatch on
the `.csv` suffix happened upstream). -/
inductive TextBody where
  | plain (content : String)
  | csvRows (headers : Option (List String)) (rows : List TabRow)

/-- The parse outcome consumed by `TextConverter.extract`; `fileExt` is the
upper-cased extension reported by `get_metadata`. -/
structure TextPayload where
  encoding : String
  fileExt : String
  body : TextBody

/-- `TextConverter.extract` (plain-text and CSV branches; any failure in
either branch is caught by the shared `except`). -/
def textExtract : Except String TextPayload → ExtractionRecord
  | Except.error cause =>
    { error := some ("Failed to extract text file: " ++ cause)
      document_type := some "Text File" }
  | Except.ok p =>
    match p.body with
    | TextBody.plain content =>
      let ls := content.splitOn "\n"
      { document_type := some "Text File"
        encoding := some p.encoding
        total_lines := some ls.length
        total_characters := some content.length
        word_count := some (wordCount content)
        full_text := some content
        lines := some ((ls.enum.filter
            (fun it => !(pyStripChars it.2.toList).isEmpty)).map
          (fun it => { line_number := it.1 + 1, text := it.2 }))
        metadata := some [("encoding", p.encoding), ("file_extension", p.fileExt)] }
    | TextBody.csvRows headers rows =>
      { document_type := some "CSV File"
        encoding := some p.encoding
        total_rows := some rows.length
        total_columns := some (headers.getD []).length
        headers := headers
        data := some rows
        preview := some (rows.take 10)
        metadata := some [("encoding", p.encoding), ("file_extension", p.fileExt)] }

/-- Modelled from the spec: section 3 of the specification defines `units`
as the "ordered sequence of per-structural-unit records (page, paragraph,
line, sheet)", so a record bears units exactly when one of the `pages`,
`paragraphs`, `lines` or `sheets` containers is present. -/
def specUnitsBearing (r : ExtractionRecord) : Bool :=
  r.pages.isSome || r.paragraphs.isSome || r.lines.isSome || r.sheets.isSome

/-- No two adjacent whitespace characters (invariant of squeezed text). -/
def noDoubleWhite : List Char → Bool
  | [] => true
  | [_] => true
  | a :: b :: t => !(pyWhite a && pyWhite b) && noDoubleWhite (b :: t)

/-- The first character, if any, is not whitespace. -/
def headNotWhite : List Char → Bool
  | [] => true
  | c :: _ => !pyWhite c

/-- The leading window of `atSafe`: the list does not continue with an `@`
squeezed between the (non-whitespace) previous character `a` and a
non-whitespace successor. -/
def headWin (a : Char) : List Char → Bool
  | b :: c :: _ => !((!pyWhite a) && (b = '@') && (!pyWhite c))
  | _ => true

/-- No `@` has non-whitespace characters immediately on both sides:
equivalently, every maximal non-space run carries `@` at most at its
edges, which is exactly the condition under which `\S+@\S+` has no match
anywhere.  This is the invariant that makes a second email-removal pass the
identity. -/
def atSafe : List Char → Bool
  | a :: b :: c :: t => headWin a (b :: c :: t) && atSafe (b :: c :: t)
  | _ => true

/-! ## Lemmas about whitespace collapsing -/

theorem toList_mk (l : List Char) : (String.mk l).toList = l := rfl

theorem mem_squeezeAux : ∀ (l : List Char) (b : Bool) (c : Char),
    c ∈ squeezeAux b l → c ∈ l ∨ c = ' ' := by
  intro l
  induction l with
  | nil => intro b c h; simp [squeezeAux] at h
  | cons d cs ih =>
    intro b c h
    by_cases hw : pyWhite d
    · cases b with
      | true =>
        simp only [squeezeAux, hw, if_pos] at h
        rcases ih true c h with h1 | h1
        · exact Or.inl (List.mem_cons_of_mem _ h1)
        · exact Or.inr h1
      | false =>
        simp only [squeezeAux, hw, if_pos, if_neg] at h
        rcases List.mem_cons.mp h with h1 | h1
        · exact Or.inr h1
        · rcases ih true c h1 with h2 | h2
          · exact Or.inl (List.mem_cons_of_mem _ h2)
          · exact Or.inr h2
    · simp only [squeezeAux, hw] at h
      rcases List.mem_cons.mp h with h1 | h1
      · exact Or.inl (h1 ▸ List.mem_cons_self _ _)
      · rcases ih false c h1 with h2 | h2
        · exact Or.inl (List.mem_cons_of_mem _ h2)
        · exact Or.inr h2

theorem white_mem_squeezeAux : ∀ (l : List Char) (b : Bool) (c : Char),
    c ∈ squeezeAux b l → pyWhite c = true → c = ' ' := by
  intro l
  induction l with
  | nil => intro b c h; simp [squeezeAux] at h
  | cons d cs ih =>
    intro b c h hw
    by_cases hd : pyWhite d
    · cases b with
      | true =>
        simp only [squeezeAux, hd, if_pos] at h
        exact ih true c h hw
      | false =>
        simp only [squeezeAux, hd, if_pos, if_neg] at h
        rcases List.mem_cons.mp h with h1 | h1
        · exact h1
        · exact ih true c h1 hw
    · simp only [squeezeAux, hd] at h
      rcases List.mem_cons.mp h with h1 | h1
      · exact absurd (h1 ▸ hw) (by simp [hd])
      · exact ih false c h1 hw

theorem noDoubleWhite_tail {x : Char} {xs : List Char}
    (h : noDoubleWhite (x :: xs) = true) : noDoubleWhite xs = true := by
  cases xs with
  | nil => rfl
  | cons y ys => exact (Bool.and_eq_true_iff.mp h).2

theorem noDoubleWhite_cons_of_left {a : Char} {l : List Char}
    (ha : pyWhite a = false) (hl : noDoubleWhite l = true) :
    noDoubleWhite (a :: l) = true := by
  cases l with
  | nil => rfl
  | cons b t => simp [noDoubleWhite, ha, hl]

theorem noDoubleWhite_cons_of_head {a : Char} {l : List Char}
    (hl : noDoubleWhite l = true) (hh : headNotWhite l = true) :
    noDoubleWhite (a :: l) = true := by
  cases l with
  | nil => rfl
  | cons b t =>
    have hb : pyWhite b = false := by
      simpa [headNotWhite] using hh
    simp [noDoubleWhite, hb, hl]

theorem headNotWhite_of_noDoubleWhite_white {d : Char} {cs : List Char}
    (hd : pyWhite d = true) (h : noDoubleWhite (d :: cs) = true) :
    headNotWhite cs = true := by
  cases cs with
  | nil => rfl
  | cons e t =>
    have := (Bool.and_eq_true_iff.mp h).1
    simp only [headNotWhite]
    simp only [hd, Bool.true_and, Bool.not_eq_true'] at this
    simp [this]

theorem squeezeAux_noDbl : ∀ (l : List Char) (b : Bool),
    noDoubleWhite (squeezeAux b l) = true ∧
      (b = true → headNotWhite (squeezeAux b l) = true) := by
  intro l
  induction l with
  | nil => intro b; exact ⟨rfl, fun _ => rfl⟩
  | cons d cs ih =>
    intro b
    by_cases hd : pyWhite d
    · cases b with
      | true =>
        simp only [squeezeAux, hd, if_pos]
        exact ⟨(ih true).1, fun _ => (ih true).2 rfl⟩
      | false =>
        simp only [squeezeAux, hd, if_pos, if_neg]
        exact ⟨noDoubleWhite_cons_of_head (ih true).1 ((ih true).2 rfl),
          fun h => by cases h⟩
    · simp only [squeezeAux, hd]
      refine ⟨noDoubleWhite_cons_of_left (by simp [hd]) (ih false).1, ?_⟩
      intro _
      simp [headNotWhite, hd]

theorem noDoubleWhite_append_right : ∀ (l₁ l₂ : List Char),
    noDoubleWhite (l₁ ++ l₂) = true → noDoubleWhite l₂ = true := by
  intro l₁
  induction l₁ with
  | nil => intro l₂ h; exact h
  | cons a t ih => intro l₂ h; exact ih l₂ (noDoubleWhite_tail h)

theorem noDoubleWhite_append_left : ∀ (l₁ l₂ : List Char),
    noDoubleWhite (l₁ ++ l₂) = true → noDoubleWhite l₁ = true := by
  intro l₁
  induction l₁ with
  | nil => intro l₂ _; rfl
  | cons a t ih =>
    intro l₂ h
    cases t with
    | nil => rfl
    | cons b t2 =>
      have h1 := (Bool.and_eq_true_iff.mp h).1
      have h2 := ih l₂ (noDoubleWhite_tail h)
      simp [noDoubleWhite, h1, h2]

theorem headNotWhite_dropWhile (l : List Char) :
    headNotWhite (l.dropWhile pyWhite) = true := by
  induction l with
  | nil => rfl
  | cons c cs ih =>
    by_cases hc : pyWhite c
    · simpa [List.dropWhile_cons, hc] using ih
    · simp [List.dropWhile_cons, hc, headNotWhite]

theorem dropWhile_eq_self_of_headNotWhite {l : List Char}
    (h : headNotWhite l = true) : l.dropWhile pyWhite = l := by
  cases l with
  | nil => rfl
  | cons c cs =>
    have hc : pyWhite c = false := by simpa [headNotWhite] using h
    simp [List.dropWhile_cons, hc]

/-- `pyStripChars l` together with the dropped tail reassembles the
front-stripped list. -/
theorem pyStrip_decomp (l : List Char) :
    l.dropWhile pyWhite =
      pyStripChars l ++ ((l.dropWhile pyWhite).reverse.takeWhile pyWhite).reverse := by
  have hs : pyStripChars l = ((l.dropWhile pyWhite).reverse.dropWhile pyWhite).reverse := rfl
  rw [hs, ← List.reverse_append, List.takeWhile_append_dropWhile, List.reverse_reverse]

theorem mem_pyStrip {c : Char} {l : List Char} (h : c ∈ pyStripChars l) : c ∈ l := by
  have h1 : c ∈ (l.dropWhile pyWhite).reverse.dropWhile pyWhite := by
    simpa [pyStripChars] using h
  have h2 : c ∈ (l.dropWhile pyWhite).reverse :=
    (List.dropWhile_sublist pyWhite).mem h1
  have h3 : c ∈ l.dropWhile pyWhite := List.mem_reverse.mp h2
  exact (List.dropWhile_sublist pyWhite).mem h3

theorem noDoubleWhite_pyStrip {l : List Char}
    (h : noDoubleWhite l = true) : noDoubleWhite (pyStripChars l) = true := by
  have h1 : noDoubleWhite (l.dropWhile pyWhite) = true := by
    have := congrArg noDoubleWhite (List.takeWhile_append_dropWhile (p := pyWhite) (l := l))
    exact noDoubleWhite_append_right _ _ (by rw [this]; exact h)
  rw [pyStrip_decomp l] at h1
  exact noDoubleWhite_append_left _ _ h1

theorem headNotWhite_pyStrip (l : List Char) :
    headNotWhite (pyStripChars l) = true := by
  have hm : headNotWhite (l.dropWhile pyWhite) = true := headNotWhite_dropWhile l
  rw [pyStrip_decomp l] at hm
  cases hs : pyStripChars l with
  | nil => rfl
  | cons c cs => rw [hs] at hm; simpa [headNotWhite] using hm

theorem lastNotWhite_pyStrip (l : List Char) :
    headNotWhite (pyStripChars l).reverse = true := by
  have : (pyStripChars l).reverse = (l.dropWhile pyWhite).reverse.dropWhile pyWhite := by
    simp [pyStripChars]
  rw [this]
  exact headNotWhite_dropWhile _

theorem squeezeAux_eq_self : ∀ (l : List Char) (b : Bool),
    (∀ c ∈ l, pyWhite c = true → c = ' ') →
    noDoubleWhite l = true →
    (b = true → headNotWhite l = true) →
    squeezeAux b l = l := by
  intro l
  induction l with
  | nil => intro b _ _ _; cases b <;> rfl
  | cons d cs ih =>
    intro b honly hdbl hhead
    by_cases hd : pyWhite d
    · cases b with
      | true =>
        have := hhead rfl
        simp [headNotWhite, hd] at this
      | false =>
        have hds : d = ' ' := honly d (List.mem_cons_self _ _) hd
        simp only [squeezeAux, hd, if_pos, if_neg]
        rw [ih true (fun c hc hw => honly c (List.mem_cons_of_mem _ hc) hw)
          (noDoubleWhite_tail hdbl)
          (fun _ => headNotWhite_of_noDoubleWhite_white hd hdbl), hds]
        rfl
    · simp only [squeezeAux, hd]
      rw [ih false (fun c hc hw => honly c (List.mem_cons_of_mem _ hc) hw)
        (noDoubleWhite_tail hdbl) (fun h => by cases h)]
      rfl

theorem pyStrip_eq_self {l : List Char}
    (hhead : headNotWhite l = true) (hlast : headNotWhite l.reverse = true) :
    pyStripChars l = l := by
  unfold pyStripChars
  rw [dropWhile_eq_self_of_headNotWhite hhead,
    dropWhile_eq_self_of_headNotWhite hlast, List.reverse_reverse]

theorem collapseWs_eq_self {l : List Char}
    (honly : ∀ c ∈ l, pyWhite c = true → c = ' ')
    (hdbl : noDoubleWhite l = true)
    (hhead : headNotWhite l = true)
    (hlast : headNotWhite l.reverse = true) :
    collapseWs l = l := by
  unfold collapseWs squeeze
  rw [squeezeAux_eq_self l false honly hdbl (fun h => by cases h)]
  exact pyStrip_eq_self hhead hlast

theorem mem_collapseWs {c : Char} {l : List Char}
    (h : c ∈ collapseWs l) : c ∈ l ∨ c = ' ' :=
  mem_squeezeAux l false c (mem_pyStrip h)

theorem collapseWs_white_eq_space {c : Char} {l : List Char}
    (h : c ∈ collapseWs l) (hw : pyWhite c = true) : c = ' ' :=
  white_mem_squeezeAux l false c (mem_pyStrip h) hw

theorem collapseWs_collapseWs (l : List Char) :
    collapseWs (collapseWs l) = collapseWs l := by
  refine collapseWs_eq_self ?_ ?_ ?_ ?_
  · exact fun c hc hw => collapseWs_white_eq_space hc hw
  · exact noDoubleWhite_pyStrip (squeezeAux_noDbl l false).1
  · exact headNotWhite_pyStrip _
  · exact lastNotWhite_pyStrip _

/-! ## Lemmas about ASCII lower-casing -/

theorem toNat_ofNat_valid {n : Nat} (h : n < 55296) : (Char.ofNat n).toNat = n := by
  have hv : n.isValidChar := Or.inl h
  simp [Char.ofNat, hv, Char.ofNatAux, Char.toNat, UInt32.toNat, BitVec.toNat_ofNatLt]

theorem pyLower_toNat_of_upper {c : Char}
    (h : (65 ≤ c.toNat && c.toNat ≤ 90) = true) :
    (pyLower c).toNat = c.toNat + 32 := by
  have h2 := Bool.and_eq_true_iff.mp h
  have hle : c.toNat ≤ 90 := by
    have := h2.2; exact Nat.le_of_ble_eq_true (by simpa using this)
  unfold pyLower
  rw [if_pos h]
  exact toNat_ofNat_valid (by omega)

theorem pyLower_eq_self_of_not_upper {c : Char}
    (h : (65 ≤ c.toNat && c.toNat ≤ 90) = false) : pyLower c = c := by
  unfold pyLower
  rw [if_neg (by simp [h])]

theorem pyLower_idem (c : Char) : pyLower (pyLower c) = pyLower c := by
  by_cases h : (65 ≤ c.toNat && c.toNat ≤ 90) = true
  · have ht : (pyLower c).toNat = c.toNat + 32 := pyLower_toNat_of_upper h
    have h2 := Bool.and_eq_true_iff.mp h
    have h65 : 65 ≤ c.toNat := by
      have := h2.1; exact Nat.le_of_ble_eq_true (by simpa using this)
    apply pyLower_eq_self_of_not_upper
    simp only [ht]
    have : ¬(65 ≤ c.toNat + 32 ∧ c.toNat + 32 ≤ 90) := by omega
    simp only [Bool.and_eq_false_iff]
    right
    simp only [decide_eq_false_iff_not]
    omega
  · have hf : (65 ≤ c.toNat && c.toNat ≤ 90) = false := by
      simpa using h
    rw [pyLower_eq_self_of_not_upper hf, pyLower_eq_self_of_not_upper hf]

theorem keepSpecial_pyLower {c : Char} (h : keepSpecial c = true) :
    keepSpecial (pyLower c) = true := by
  by_cases hu : (65 ≤ c.toNat && c.toNat ≤ 90) = true
  · have ht := pyLower_toNat_of_upper hu
    have h2 := Bool.and_eq_true_iff.mp hu
    have h65 : 65 ≤ c.toNat := by simpa using h2.1
    have h90 : c.toNat ≤ 90 := by simpa using h2.2
    simp only [keepSpecial, pyAlpha, Bool.or_eq_true, Bool.and_eq_true_iff,
      decide_eq_true_eq, ht]
    left; left; right
    omega
  · have hf : (65 ≤ c.toNat && c.toNat ≤ 90) = false := by simpa using hu
    rw [pyLower_eq_self_of_not_upper hf]
    exact h

theorem pyDigit_pyLower {c : Char} (h : pyDigit c = false) :
    pyDigit (pyLower c) = false := by
  by_cases hu : (65 ≤ c.toNat && c.toNat ≤ 90) = true
  · have ht := pyLower_toNat_of_upper hu
    have h2 := Bool.and_eq_true_iff.mp hu
    have h65 : 65 ≤ c.toNat := by simpa using h2.1
    simp only [pyDigit, ht, Bool.and_eq_false_iff, decide_eq_false_iff_not]
    right
    omega
  · have hf : (65 ≤ c.toNat && c.toNat ≤ 90) = false := by simpa using hu
    rw [pyLower_eq_self_of_not_upper hf]
    exact h

/-! ## Identity of the second cleaning pass -/

theorem mem_numStep {c : Char} {b : Bool} {l : List Char}
    (h : c ∈ numStep b l) : c ∈ l := by
  cases b with
  | true => exact List.mem_of_mem_filter h
  | false => exact h

theorem mem_spStep {c : Char} {b : Bool} {l : List Char}
    (h : c ∈ spStep b l) : c ∈ l := by
  cases b with
  | true => exact List.mem_of_mem_filter h
  | false => exact h

/-- Every character of the once-cleaned text is kept by the special-chars
filter, provided that filter ran in the first pass. -/
theorem collapse_chars_keepSpecial {b2 b3 : Bool} {l : List Char} {c : Char}
    (h : c ∈ collapseWs (lowStep b3 (numStep b2 (l.filter keepSpecial)))) :
    keepSpecial c = true := by
  rcases mem_collapseWs h with h1 | h1
  · cases b3 with
    | true =>
      rcases List.mem_map.mp h1 with ⟨d, hd, rfl⟩
      exact keepSpecial_pyLower (List.of_mem_filter (mem_numStep hd))
    | false => exact List.of_mem_filter (mem_numStep h1)
  · subst h1; decide

/-- Every character of the once-cleaned text is a non-digit, provided the
digit filter ran in the first pass. -/
theorem collapse_chars_not_digit {b3 : Bool} {l : List Char} {c : Char}
    (h : c ∈ collapseWs (lowStep b3 (l.filter (fun d => !pyDigit d)))) :
    pyDigit c = false := by
  rcases mem_collapseWs h with h1 | h1
  · cases b3 with
    | true =>
      rcases List.mem_map.mp h1 with ⟨d, hd, rfl⟩
      exact pyDigit_pyLower (by simpa using List.of_mem_filter hd)
    | false => simpa using List.of_mem_filter h1
  · subst h1; decide

/-- Every character of the once-cleaned text is fixed by lower-casing,
provided lower-casing ran in the first pass. -/
theorem collapse_chars_lower_fixed {l : List Char} {c : Char}
    (h : c ∈ collapseWs (l.map pyLower)) : pyLower c = c := by
  rcases mem_collapseWs h with h1 | h1
  · rcases List.mem_map.mp h1 with ⟨d, _, rfl⟩
    exact pyLower_idem d
  · subst h1; decide

/-! ## Lemmas: a second email-removal pass is the identity -/

theorem atSafe_cons (a : Char) (l : List Char) :
    atSafe (a :: l) = (headWin a l && atSafe l) := by
  cases l with
  | nil => rfl
  | cons b t =>
    cases t with
    | nil => rfl
    | cons c t2 => rfl

theorem atSafe_tail {a : Char} {l : List Char} (h : atSafe (a :: l) = true) :
    atSafe l = true := by
  rw [atSafe_cons] at h
  exact (Bool.and_eq_true_iff.mp h).2

theorem headWin_of_white {a : Char} (hw : pyWhite a = true) (l : List Char) :
    headWin a l = true := by
  cases l with
  | nil => rfl
  | cons b t =>
    cases t with
    | nil => rfl
    | cons c t2 => simp [headWin, hw]

theorem atSafe_suffix : ∀ (l₁ l₂ : List Char),
    atSafe (l₁ ++ l₂) = true → atSafe l₂ = true := by
  intro l₁
  induction l₁ with
  | nil => intro l₂ h; exact h
  | cons a t ih => intro l₂ h; exact ih l₂ (atSafe_tail h)

theorem headWin_append {a : Char} {l₁ l₂ : List Char}
    (h : headWin a (l₁ ++ l₂) = true) : headWin a l₁ = true := by
  cases l₁ with
  | nil => rfl
  | cons b t =>
    cases t with
    | nil => rfl
    | cons c t2 => exact h

theorem atSafe_prefix : ∀ (l₁ l₂ : List Char),
    atSafe (l₁ ++ l₂) = true → atSafe l₁ = true := by
  intro l₁
  induction l₁ with
  | nil => intro _ _; rfl
  | cons a t ih =>
    intro l₂ h
    rw [atSafe_cons]
    rw [List.cons_append, atSafe_cons] at h
    have h2 := Bool.and_eq_true_iff.mp h
    exact Bool.and_eq_true_iff.mpr ⟨headWin_append h2.1, ih l₂ h2.2⟩

theorem pyWhite_toNat_le {c : Char} (h : pyWhite c = true) : c.toNat ≤ 32 := by
  simp only [pyWhite, Bool.or_eq_true, decide_eq_true_eq] at h
  rcases h with ((((h | h) | h) | h) | h) | h <;> subst h <;> decide

theorem atSafe_filter {q : Char → Bool} (hw : ∀ c, pyWhite c = true → q c = true) :
    ∀ l, atSafe l = true → atSafe (l.filter q) = true := by
  intro l
  induction l with
  | nil => intro _; rfl
  | cons a t ih =>
    intro h
    have ht := ih (atSafe_tail h)
    by_cases hq : q a
    · rw [List.filter_cons_of_pos hq, atSafe_cons]
      refine Bool.and_eq_true_iff.mpr ⟨?_, ht⟩
      cases hf1 : t.filter q with
      | nil => rfl
      | cons b t2 =>
        cases t2 with
        | nil => rfl
        | cons c t3 =>
          by_cases hwa : pyWhite a = true
          · exact headWin_of_white hwa _
          by_cases hb : b = '@'
          case neg => simp [headWin, hb]
          by_cases hwc : pyWhite c = true
          case pos => simp [headWin, hwc]
          exfalso
          subst hb
          rcases List.filter_eq_cons_iff.mp hf1 with ⟨l₁, l₂, ht_eq, hl₁, hqa, hfl₂⟩
          rcases List.filter_eq_cons_iff.mp hfl₂ with ⟨m₁, m₂, hl₂_eq, hm₁, hqc, hfm₂⟩
          subst ht_eq; subst hl₂_eq
          have hwa2 : pyWhite a = false := by simpa using hwa
          have hwc2 : pyWhite c = false := by simpa using hwc
          have hl₁w : ∀ x ∈ l₁, pyWhite x = false := by
            intro x hx
            by_contra hcon
            exact hl₁ x hx (hw x (by simpa using hcon))
          have hm₁w : ∀ x ∈ m₁, pyWhite x = false := by
            intro x hx
            by_contra hcon
            exact hm₁ x hx (hw x (by simpa using hcon))
          have hne : (a :: l₁) ≠ [] := by simp
          have hdec := List.dropLast_concat_getLast hne
          have hxw : pyWhite ((a :: l₁).getLast hne) = false := by
            rcases List.mem_cons.mp (List.getLast_mem hne) with h1 | h1
            · rw [h1]; exact hwa2
            · exact hl₁w _ h1
          have hsplit : a :: (l₁ ++ '@' :: (m₁ ++ c :: m₂)) =
              (a :: l₁).dropLast ++
                ((a :: l₁).getLast hne :: '@' :: (m₁ ++ c :: m₂)) := by
            calc a :: (l₁ ++ '@' :: (m₁ ++ c :: m₂))
                = (a :: l₁) ++ ('@' :: (m₁ ++ c :: m₂)) := by rw [List.cons_append]
              _ = ((a :: l₁).dropLast ++ [(a :: l₁).getLast hne]) ++
                    ('@' :: (m₁ ++ c :: m₂)) := by rw [hdec]
              _ = (a :: l₁).dropLast ++
                    ((a :: l₁).getLast hne :: '@' :: (m₁ ++ c :: m₂)) := by
                  rw [List.append_assoc]
                  rfl
          have hsuf := atSafe_suffix _ _ (hsplit ▸ h)
          cases hm : m₁ with
          | nil =>
            rw [hm] at hsuf
            simp only [List.nil_append] at hsuf
            rw [atSafe_cons] at hsuf
            have hhw := (Bool.and_eq_true_iff.mp hsuf).1
            simp [headWin, hxw, hwc2] at hhw
          | cons y m₁x =>
            rw [hm] at hsuf
            simp only [List.cons_append] at hsuf
            rw [atSafe_cons] at hsuf
            have hyw : pyWhite y = false := hm₁w y (by rw [hm]; exact List.mem_cons_self _ _)
            have hhw := (Bool.and_eq_true_iff.mp hsuf).1
            simp [headWin, hxw, hyw] at hhw
    · rw [List.filter_cons_of_neg hq]
      exact ht

theorem pyWhite_pyLower (c : Char) : pyWhite (pyLower c) = pyWhite c := by
  by_cases hu : (65 ≤ c.toNat && c.toNat ≤ 90) = true
  · have ht := pyLower_toNat_of_upper hu
    have h2 := Bool.and_eq_true_iff.mp hu
    have h65 : 65 ≤ c.toNat := by simpa using h2.1
    have hc : pyWhite c = false := by
      by_contra hcon
      have := pyWhite_toNat_le (by simpa using hcon)
      omega
    have hlc : pyWhite (pyLower c) = false := by
      by_contra hcon
      have := pyWhite_toNat_le (by simpa using hcon)
      omega
    rw [hc, hlc]
  · rw [pyLower_eq_self_of_not_upper (by simpa using hu)]

theorem pyLower_eq_at {c : Char} (h : pyLower c = '@') : c = '@' := by
  by_cases hu : (65 ≤ c.toNat && c.toNat ≤ 90) = true
  · exfalso
    have ht := pyLower_toNat_of_upper hu
    have h2 := Bool.and_eq_true_iff.mp hu
    have h65 : 65 ≤ c.toNat := by simpa using h2.1
    have := congrArg Char.toNat h
    rw [ht] at this
    have hat : ('@' : Char).toNat = 64 := by decide
    omega
  · have hself := pyLower_eq_self_of_not_upper (c := c) (by simpa using hu)
    rw [hself] at h
    exact h

theorem headWin_map_pyLower {a : Char} {l : List Char}
    (h : headWin a l = true) : headWin (pyLower a) (l.map pyLower) = true := by
  cases l with
  | nil => rfl
  | cons b t =>
    cases t with
    | nil => rfl
    | cons c t2 =>
      simp only [List.map_cons, headWin] at h ⊢
      by_cases hb : pyLower b = '@'
      · have hb0 : b = '@' := pyLower_eq_at hb
        by_cases ha : pyWhite a = true
        · simp [pyWhite_pyLower, ha]
        by_cases hc2 : pyWhite c = true
        · simp [pyWhite_pyLower, hc2]
        · exfalso
          have ha2 : pyWhite a = false := by simpa using ha
          have hc3 : pyWhite c = false := by simpa using hc2
          rw [hb0] at h
          simp [ha2, hc3] at h
      · simp [hb]

theorem atSafe_map_pyLower : ∀ {l : List Char},
    atSafe l = true → atSafe (l.map pyLower) = true := by
  intro l
  induction l with
  | nil => intro _; rfl
  | cons a t ih =>
    intro h
    rw [atSafe_cons] at h
    have h2 := Bool.and_eq_true_iff.mp h
    rw [List.map_cons, atSafe_cons]
    exact Bool.and_eq_true_iff.mpr ⟨headWin_map_pyLower h2.1, ih h2.2⟩

theorem squeezeAux_false_head : ∀ (l : List Char) (h : Char) (rest : List Char),
    squeezeAux false l = h :: rest → pyWhite h = true ∨ l.head? = some h := by
  intro l h rest heq
  cases l with
  | nil => simp [squeezeAux] at heq
  | cons c cs =>
    by_cases hc : pyWhite c = true
    · simp only [squeezeAux, hc, if_pos, if_neg] at heq
      injection heq with h1 h2
      left
      rw [← h1]
      decide
    · simp only [squeezeAux, hc] at heq
      injection heq with h1 h2
      right
      rw [← h1]
      rfl

theorem atSafe_squeezeAux : ∀ (l : List Char) (b : Bool),
    atSafe l = true → atSafe (squeezeAux b l) = true := by
  intro l
  induction l with
  | nil => intro b _; cases b <;> rfl
  | cons c cs ih =>
    intro b h
    have ht := atSafe_tail h
    by_cases hc : pyWhite c = true
    · cases b with
      | true =>
        simp only [squeezeAux, hc, if_pos]
        exact ih true ht
      | false =>
        simp only [squeezeAux, hc, if_pos, if_neg]
        show atSafe (' ' :: squeezeAux true cs) = true
        rw [atSafe_cons]
        exact Bool.and_eq_true_iff.mpr
          ⟨headWin_of_white (by decide) _, ih true ht⟩
    · simp only [squeezeAux, hc]
      show atSafe (c :: squeezeAux false cs) = true
      rw [atSafe_cons]
      refine Bool.and_eq_true_iff.mpr ⟨?_, ih false ht⟩
      cases hout : squeezeAux false cs with
      | nil => rfl
      | cons o1 out2 =>
        cases out2 with
        | nil => rfl
        | cons o2 out3 =>
          by_cases h1 : o1 = '@'
          · by_cases h2 : pyWhite o2 = true
            · simp [headWin, h2]
            · -- o1 = '@' nonwhite, so o1 is the head of cs
              exfalso
              subst h1
              rcases squeezeAux_false_head cs _ _ hout with hw1 | hw1
              · exact absurd hw1 (by decide)
              · cases cs with
                | nil => simp at hw1
                | cons d cs2 =>
                  have hd : d = '@' := by simpa using hw1
                  subst hd
                  have hd2 : pyWhite ('@' : Char) = false := by decide
                  simp only [squeezeAux, hd2] at hout
                  injection hout with hx1 hx2
                  rcases squeezeAux_false_head cs2 _ _ hx2 with hw2 | hw2
                  · exact absurd hw2 (by simpa using h2)
                  · cases cs2 with
                    | nil => simp at hw2
                    | cons e cs3 =>
                      have he : e = o2 := by simpa using hw2
                      have hef : pyWhite e = false := by
                        rw [he]; simpa using h2
                      rw [atSafe_cons] at h
                      have hhw := (Bool.and_eq_true_iff.mp h).1
                      have hcf : pyWhite c = false := by simpa using hc
                      simp [headWin, hcf, hef] at hhw
          · simp [headWin, h1]

theorem atSafe_pyStrip {l : List Char} (h : atSafe l = true) :
    atSafe (pyStripChars l) = true := by
  have h1 : atSafe (l.dropWhile pyWhite) = true := by
    have hsplit := List.takeWhile_append_dropWhile (p := pyWhite) (l := l)
    exact atSafe_suffix _ _ (by rw [hsplit]; exact h)
  rw [pyStrip_decomp l] at h1
  exact atSafe_prefix _ _ h1

theorem atSafe_collapseWs {l : List Char} (h : atSafe l = true) :
    atSafe (collapseWs l) = true :=
  atSafe_pyStrip (atSafe_squeezeAux l false h)

theorem takeWhile_cons_inv {p : Char → Bool} {l : List Char} {x : Char}
    {rest : List Char} (h : l.takeWhile p = x :: rest) :
    ∃ cs, l = x :: cs ∧ p x = true ∧ cs.takeWhile p = rest := by
  cases l with
  | nil => simp at h
  | cons c cs =>
    rw [List.takeWhile_cons] at h
    by_cases hp : p c = true
    · rw [if_pos hp] at h
      injection h with h1 h2
      exact ⟨cs, by rw [h1], h1 ▸ hp, h2⟩
  
    · rw [if_neg hp] at h
      simp at h

theorem emailRunMatches_false_of_atSafe : ∀ (l : List Char),
    atSafe l = true →
    emailRunMatches (l.takeWhile (fun d => !pyWhite d)) = false := by
  intro l
  induction l with
  | nil => intro _; rfl
  | cons c cs ih =>
    intro h
    by_cases hw : pyWhite c = true
    · rw [List.takeWhile_cons, if_neg (by simp [hw])]
      rfl
    · rw [List.takeWhile_cons, if_pos (by simp [hw])]
      have hrun := ih (atSafe_tail h)
      show ((cs.takeWhile (fun d => !pyWhite d)).dropLast).contains '@' = false
      cases hrw : cs.takeWhile (fun d => !pyWhite d) with
      | nil => rfl
      | cons x t2 =>
        cases t2 with
        | nil => rfl
        | cons y t3 =>
          rw [List.dropLast_cons₂]
          rw [hrw] at hrun
          have hrun2 : ((y :: t3).dropLast).contains '@' = false := by
            simpa [emailRunMatches] using hrun
          by_cases hx : x = '@'
          · exfalso
            subst hx
            rcases takeWhile_cons_inv hrw with ⟨cs2, hcs, _, htw2⟩
            rcases takeWhile_cons_inv htw2 with ⟨cs3, hcs2, hpy, _⟩
            rw [hcs, hcs2] at h
            rw [atSafe_cons] at h
            have hhw := (Bool.and_eq_true_iff.mp h).1
            have hcf : pyWhite c = false := by simpa using hw
            have hyf : pyWhite y = false := by simpa using hpy
            simp [headWin, hcf, hyf] at hhw
          · show ((x :: (y :: t3).dropLast).contains '@') = false
            simp only [List.contains_cons, Bool.or_eq_false_iff,
              beq_eq_false_iff_ne, ne_eq]
            refine ⟨fun hcon => hx hcon.symm, ?_⟩
            exact hrun2

theorem removeEmailsAux_eq_self : ∀ (n : Nat) (l : List Char),
    atSafe l = true → removeEmailsAux n l = l := by
  intro n
  induction n with
  | zero => intro l _; rfl
  | succ m ih =>
    intro l h
    cases l with
    | nil => rfl
    | cons c cs =>
      by_cases hw : pyWhite c = true
      · simp only [removeEmailsAux, hw, if_pos]
        rw [ih cs (atSafe_tail h)]
      · have hm := emailRunMatches_false_of_atSafe (c :: cs) h
        simp only [removeEmailsAux, hw, hm]
        show c :: removeEmailsAux m cs = c :: cs
        rw [ih cs (atSafe_tail h)]

theorem head_white_dropWhile_nonwhite : ∀ (l : List Char) (h : Char) (rest : List Char),
    l.dropWhile (fun d => !pyWhite d) = h :: rest → pyWhite h = true := by
  intro l
  induction l with
  | nil => intro h rest hcon; simp at hcon
  | cons c cs ih =>
    intro h rest heq
    by_cases hc : pyWhite c = true
    · rw [List.dropWhile_cons, if_neg (by simp [hc])] at heq
      injection heq with h1 _
      rw [← h1]
      exact hc
    · rw [List.dropWhile_cons, if_pos (by simp [hc])] at heq
      exact ih h rest heq

theorem removeEmailsAux_head : ∀ (n : Nat) (l : List Char) (h : Char)
    (rest : List Char), removeEmailsAux n l = h :: rest →
    pyWhite h = true ∨ l.head? = some h := by
  intro n
  induction n with
  | zero =>
    intro l h rest heq
    right
    have hl : l = h :: rest := heq
    rw [hl]
    rfl
  | succ m ih =>
    intro l h rest heq
    cases l with
    | nil => simp [removeEmailsAux] at heq
    | cons c cs =>
      by_cases hw : pyWhite c = true
      · simp only [removeEmailsAux, hw, if_pos] at heq
        injection heq with h1 _
        right
        rw [← h1]
        rfl
      · by_cases hm : emailRunMatches ((c :: cs).takeWhile (fun d => !pyWhite d)) = true
        · simp only [removeEmailsAux, hw, hm, if_pos, if_neg] at heq
          rcases ih _ _ _ heq with h1 | h1
          · exact Or.inl h1
          · cases hd : (c :: cs).dropWhile (fun d => !pyWhite d) with
            | nil => rw [hd] at h1; simp at h1
            | cons d ds =>
              rw [hd] at h1
              have : d = h := by simpa using h1
              exact Or.inl (this ▸ head_white_dropWhile_nonwhite _ _ _ hd)
        · have hm2 : emailRunMatches ((c :: cs).takeWhile (fun d => !pyWhite d)) = false := by
            simpa using hm
          simp only [removeEmailsAux, hw, hm2] at heq
          have heq2 : c :: removeEmailsAux m cs = h :: rest := heq
          injection heq2 with h1 _
          right
          rw [← h1]
          rfl

theorem atSafe_removeEmailsAux : ∀ (n : Nat) (l : List Char),
    l.length ≤ n → atSafe (removeEmailsAux n l) = true := by
  intro n
  induction n with
  | zero =>
    intro l hlen
    have : l = [] := List.eq_nil_of_length_eq_zero (Nat.le_zero.mp hlen)
    rw [this]
    rfl
  | succ m ih =>
    intro l hlen
    cases l with
    | nil => rfl
    | cons c cs =>
      have hlen2 : cs.length ≤ m := by
        simpa [Nat.succ_le_succ_iff] using hlen
      by_cases hw : pyWhite c = true
      · simp only [removeEmailsAux, hw, if_pos]
        rw [atSafe_cons]
        exact Bool.and_eq_true_iff.mpr
          ⟨headWin_of_white hw _, ih cs hlen2⟩
      · by_cases hm : emailRunMatches ((c :: cs).takeWhile (fun d => !pyWhite d)) = true
        · simp only [removeEmailsAux, hw, hm, if_pos, if_neg]
          apply ih
          have : (c :: cs).dropWhile (fun d => !pyWhite d) =
              cs.dropWhile (fun d => !pyWhite d) := by
            rw [List.dropWhile_cons, if_pos (by simp [hw])]
          rw [this]
          exact Nat.le_trans ((List.dropWhile_sublist _).length_le) hlen2
        · have hm2 : emailRunMatches ((c :: cs).takeWhile (fun d => !pyWhite d)) = false := by
            simpa using hm
          simp only [removeEmailsAux, hw, hm2]
          show atSafe (c :: removeEmailsAux m cs) = true
          rw [atSafe_cons]
          refine Bool.and_eq_true_iff.mpr ⟨?_, ih cs hlen2⟩
          cases hout : removeEmailsAux m cs with
          | nil => rfl
          | cons o1 out2 =>
            cases out2 with
            | nil => rfl
            | cons o2 out3 =>
              by_cases h1 : o1 = '@'
              · by_cases h2 : pyWhite o2 = true
                · simp [headWin, h2]
                · exfalso
                  subst h1
                  rcases removeEmailsAux_head m cs _ _ hout with hw1 | hw1
                  · exact absurd hw1 (by decide)
                  · cases cs with
                    | nil => simp at hw1
                    | cons d cs2 =>
                      have hd : d = '@' := by simpa using hw1
                      subst hd
                      have hlen3 : cs2.length < m := by
                        simpa [Nat.lt_iff_add_one_le] using hlen2
                      cases m with
                      | zero => omega
                      | succ k =>
                        have hwat : pyWhite ('@' : Char) = true → False := by decide
                        by_cases hm3 : emailRunMatches
                            (('@' :: cs2).takeWhile (fun d => !pyWhite d)) = true
                        · simp only [removeEmailsAux,
                            show pyWhite ('@' : Char) = false from by decide,
                            hm3, if_pos, if_neg] at hout
                          rcases removeEmailsAux_head _ _ _ _ hout with hww | hww
                          · exact absurd hww (by decide)
                          · cases hdd : ('@' :: cs2).dropWhile (fun d => !pyWhite d) with
                            | nil => rw [hdd] at hww; simp at hww
                            | cons e es =>
                              rw [hdd] at hww
                              have he : e = '@' := by simpa using hww
                              have := head_white_dropWhile_nonwhite _ _ _ hdd
                              rw [he] at this
                              exact hwat this
                        · have hm4 : emailRunMatches
                              (('@' :: cs2).takeWhile (fun d => !pyWhite d)) = false := by
                            simpa using hm3
                          simp only [removeEmailsAux,
                            show pyWhite ('@' : Char) = false from by decide,
                            hm4] at hout
                          have hout2 : '@' :: removeEmailsAux k cs2 = '@' :: o2 :: out3 :=
                            hout
                          injection hout2 with _ hx2
                          rcases removeEmailsAux_head k cs2 _ _ hx2 with hww | hww
                          · exact absurd hww (by simpa using h2)
                          · cases cs2 with
                            | nil => simp at hww
                            | cons e cs3 =>
                              have he : e = o2 := by simpa using hww
                              -- the unmatched run c :: '@' :: e :: ... contradicts hm2
                              rw [List.takeWhile_cons, if_pos (by simp [hw]),
                                List.takeWhile_cons,
                                if_pos (by decide),
                                List.takeWhile_cons] at hm2
                              have hef : pyWhite e = false := by
                                rw [he]; simpa using h2
                              rw [if_pos (by simp [hef])] at hm2
                              simp [emailRunMatches, List.dropLast_cons₂] at hm2
              · simp [headWin, h1]

theorem atSafe_pass (sc rn lc : Bool) (t : List Char) :
    atSafe (collapseWs (lowStep lc (numStep rn (spStep sc (removeEmails t))))) = true := by
  have h0 : atSafe (removeEmails t) = true :=
    atSafe_removeEmailsAux t.length t (Nat.le_refl _)
  have h1 : atSafe (spStep sc (removeEmails t)) = true := by
    cases sc with
    | false => exact h0
    | true =>
      show atSafe ((removeEmails t).filter keepSpecial) = true
      exact atSafe_filter (fun c hc => by simp [keepSpecial, hc]) _ h0
  have h2 : atSafe (numStep rn (spStep sc (removeEmails t))) = true := by
    cases rn with
    | false => exact h1
    | true =>
      show atSafe ((spStep sc (removeEmails t)).filter (fun c => !pyDigit c)) = true
      apply atSafe_filter ?_ _ h1
      intro c hc
      have hle := pyWhite_toNat_le hc
      have hd : pyDigit c = false := by
        simp only [pyDigit, Bool.and_eq_false_iff, decide_eq_false_iff_not]
        left
        omega
      simp [hd]
  have h3 : atSafe (lowStep lc (numStep rn (spStep sc (removeEmails t)))) = true := by
    cases lc with
    | false => exact h2
    | true =>
      show atSafe ((numStep rn (spStep sc (removeEmails t))).map pyLower) = true
      exact atSafe_map_pyLower h2
  exact atSafe_collapseWs h3

theorem removeEmails_pass_fixed (sc rn lc : Bool) (t : List Char) :
    removeEmails (collapseWs (lowStep lc (numStep rn (spStep sc (removeEmails t))))) =
      collapseWs (lowStep lc (numStep rn (spStep sc (removeEmails t)))) :=
  removeEmailsAux_eq_self _ _ (atSafe_pass sc rn lc t)

theorem cleanText_eq_of_flags_email (s : String) (sc rn lc : Bool) :
    cleanText s ⟨true, sc, rn, lc, false, true, false⟩ =
      String.mk (collapseWs (lowStep lc (numStep rn (spStep sc
        (removeEmails s.toList))))) := rfl

/-- One full cleaning pass (with the three regex-substitution steps
disabled) applied to its own output is the identity: the list-level core of
the idempotence theorem. -/
theorem pass_idempotent (sc rn lc : Bool) (t : List Char) :
    collapseWs (lowStep lc (numStep rn (spStep sc
      (collapseWs (lowStep lc (numStep rn (spStep sc t))))))) =
    collapseWs (lowStep lc (numStep rn (spStep sc t))) := by
  set X := collapseWs (lowStep lc (numStep rn (spStep sc t))) with hX
  have h1 : spStep sc X = X := by
    cases sc with
    | false => rfl
    | true =>
      show X.filter keepSpecial = X
      apply List.filter_eq_self.mpr
      intro c hc
      rw [hX] at hc
      exact collapse_chars_keepSpecial hc
  have h2 : numStep rn (spStep sc X) = X := by
    rw [h1]
    cases rn with
    | false => rfl
    | true =>
      show X.filter (fun d => !pyDigit d) = X
      apply List.filter_eq_self.mpr
      intro c hc
      rw [hX] at hc
      simp [collapse_chars_not_digit hc]
  have h3 : lowStep lc (numStep rn (spStep sc X)) = X := by
    rw [h2]
    cases lc with
    | false => rfl
    | true =>
      show X.map pyLower = X
      have hfix : ∀ c ∈ X, pyLower c = c := by
        intro c hc
        rw [hX] at hc
        exact collapse_chars_lower_fixed hc
      exact (List.map_congr_left hfix).trans (List.map_id X)
  rw [h3, hX]
  exact collapseWs_collapseWs _

/-- Unfolding `cleanText` when the URL/email/phone substitutions are
disabled and `remove_extra_spaces` is enabled. -/
theorem cleanText_eq_of_flags (s : String) (sc rn lc : Bool) :
    cleanText s ⟨true, sc, rn, lc, false, false, false⟩ =
      String.mk (collapseWs (lowStep lc (numStep rn (spStep sc s.toList)))) := rfl

/-- C1 (amended): with `remove_extra_spaces` enabled and the URL and
phone-number substitutions disabled, `clean_text` is idempotent for every
input string and every combination of the remaining flags
(`remove_emails`, `remove_special_chars`, `remove_numbers`, `lowercase`).
Email removal deletes whole runs carrying an interior `@`, and no later
step can merge runs or give an edge `@` a non-whitespace neighbour on both
sides, so a second email pass is the identity. -/
theorem clean_text_idempotent (s : String) (o : CleaningOptions)
    (hsp : o.remove_extra_spaces = true) (hu : o.remove_urls = false)
    (hph : o.remove_phone_numbers = false) :
    cleanText (cleanText s o) o = cleanText s o := by
  obtain ⟨sp, sc, rn, lc, ru, re, rp⟩ := o
  replace hsp : sp = true := hsp
  replace hu : ru = false := hu
  replace hph : rp = false := hph
  subst hsp; subst hu; subst hph
  cases re with
  | false =>
    rw [cleanText_eq_of_flags, cleanText_eq_of_flags, toList_mk]
    exact congrArg String.mk (pass_idempotent sc rn lc s.toList)
  | true =>
    rw [cleanText_eq_of_flags_email, cleanText_eq_of_flags_email, toList_mk,
      removeEmails_pass_fixed]
    exact congrArg String.mk (pass_idempotent sc rn lc (removeEmails s.toList))

/-- Witness for the amended C1 theorem at a concrete input with
`remove_emails` enabled. -/
theorem clean_text_idempotent_witness :
    (⟨true, true, true, true, false, true, false⟩ : CleaningOptions).remove_extra_spaces
        = true ∧
    (⟨true, true, true, true, false, true, false⟩ : CleaningOptions).remove_urls = false ∧
    (⟨true, true, true, true, false, true,
        false⟩ : CleaningOptions).remove_phone_numbers = false ∧
    cleanText (cleanText "  a@b c@ @d A1!  " ⟨true, true, true, true, false, true, false⟩)
        ⟨true, true, true, true, false, true, false⟩ =
      cleanText "  a@b c@ @d A1!  " ⟨true, true, true, true, false, true, false⟩ :=
  ⟨rfl, rfl, rfl,
    clean_text_idempotent "  a@b c@ @d A1!  " ⟨true, true, true, true, false, true, false⟩
      rfl rfl rfl⟩

/-- C1 (counterexample): the claim as stated is false.  With `remove_urls`
and `lowercase` enabled (and `remove_extra_spaces` enabled), the input
`"HTTP://A"` survives the first pass as `"http://a"` — the URL regex is
case-sensitive and runs before lower-casing — and the second pass then
deletes it, so applying `clean_text` twice differs from applying it
once. -/
theorem clean_text_not_idempotent :
    (⟨true, false, false, true, true, false, false⟩ : CleaningOptions).remove_extra_spaces
        = true ∧
    cleanText (cleanText "HTTP://A" ⟨true, false, false, true, true, false, false⟩)
        ⟨true, false, false, true, true, false, false⟩ ≠
      cleanText "HTTP://A" ⟨true, false, false, true, true, false, false⟩ :=
  ⟨rfl, by decide⟩

/-- C4: the rows selected for CSV export follow the first-matching-rule
order — explicit tabular rows (`data`), else the multi-sheet concatenation
(`all_data`), else the first detected table with its first row as header
and remaining rows zipped against it — and the CSV branch of
`process_file` fails with the no-tabular-data message exactly when that
selection is empty, producing no artifact. -/
theorem extract_tabular_data_policy (r : ExtractionRecord) :
    extractTabularData r = tabularPolicySpec r ∧
    csvDecision r = (match tabularPolicySpec r with
      | [] => CsvDecision.noTabularData
      | rows => CsvDecision.exportRows rows) := by
  have h : extractTabularData r = tabularPolicySpec r := by
    unfold extractTabularData tabularPolicySpec
    cases r.data with
    | some d => rfl
    | none =>
      cases r.all_data with
      | some ad => rfl
      | none =>
        cases r.tables with
        | none => rfl
        | some ts =>
          cases ts with
          | nil => rfl
          | cons t ts2 =>
            cases htd : t.data with
            | nil => simp [htd]
            | cons h1 rest =>
              cases rest with
              | nil => simp [htd]
              | cons r2 rest2 => simp [htd]
  refine ⟨h, ?_⟩
  unfold csvDecision
  rw [h]

/-- C5: every extractor is total (the Lean model of "never propagates an
exception") and on an internal failure with cause `cause` returns exactly
the dictionary with the `Failed to extract <type>: <cause>` error string
and the `document_type` tag, and no other field. -/
theorem extractor_error_policy (cause : String) :
    pdfExtract (Except.error cause) =
      { document_type := some "PDF",
        error := some ("Failed to extract PDF: " ++ cause) } ∧
    wordExtract (Except.error cause) =
      { document_type := some "Word Document",
        error := some ("Failed to extract Word document: " ++ cause) } ∧
    excelExtract (Except.error cause) =
      { document_type := some "Excel Spreadsheet",
        error := some ("Failed to extract Excel file: " ++ cause) } ∧
    textExtract (Except.error cause) =
      { document_type := some "Text File",
        error := some ("Failed to extract text file: " ++ cause) } :=
  ⟨rfl, rfl, rfl, rfl⟩

/-- C6 (amended): `create_ai_training_format` computes `word_count` as the
number of whitespace-separated words of `full_text` (0 when absent or
empty), `has_tables` as presence of a non-empty tables list,
`has_structure` as presence of the `pages` or `paragraphs` key (records
carrying only `lines` or `sheets` units report false), and
`structured_data` as tables if present, else the tabular rows, else empty;
on `full_text = "a b c"` with no tables it yields `word_count = 3` and
`has_tables = false`. -/
theorem create_ai_training_format_spec (r : ExtractionRecord) :
    (createAiTrainingFormat r).input_text = r.full_text.getD "" ∧
    (createAiTrainingFormat r).metadata = r.metadata.getD [] ∧
    (createAiTrainingFormat r).features.document_type = r.document_type.getD "unknown" ∧
    (createAiTrainingFormat r).features.word_count = wordCount (r.full_text.getD "") ∧
    ((createAiTrainingFormat r).features.has_tables = true ↔
      ∃ ts, r.tables = some ts ∧ ts ≠ []) ∧
    (createAiTrainingFormat r).features.has_structure
        = (r.pages.isSome || r.paragraphs.isSome) ∧
    (createAiTrainingFormat r).structured_data =
      (match r.tables, r.data with
       | some ts, _ => StructuredData.tables ts
       | none, some rs => StructuredData.rows rs
       | none, none => StructuredData.empty) ∧
    wordCount "a b c" = 3 ∧
    (createAiTrainingFormat { full_text := some "a b c" }).features.word_count = 3 ∧
    (createAiTrainingFormat { full_text := some "a b c" }).features.has_tables = false := by
  refine ⟨rfl, rfl, rfl, rfl, ?_, rfl, ?_, by decide, by decide, by decide⟩
  · cases ht : r.tables with
    | none => simp [createAiTrainingFormat, ht]
    | some ts => simp [createAiTrainingFormat, ht, List.isEmpty_iff]
  · cases ht : r.tables <;> cases hd : r.data <;>
      simp [createAiTrainingFormat, ht, hd]

/-- C6 (counterexample): a record carrying only `lines` units — as the
plain-text extractor produces — bears units in the sense of the data model
of the specification, yet `create_ai_training_format` reports
`has_structure = false`, because the code checks only for the `pages` and
`paragraphs` keys. -/
theorem ai_format_has_structure_misses_units :
    specUnitsBearing { lines := some [{ line_number := 1, text := "hello" }] } = true ∧
    (createAiTrainingFormat
        { lines := some [{ line_number := 1, text := "hello" }] }).features.has_structure
      = false :=
  ⟨rfl, rfl⟩

/-- C9: `get_statistics` reports `has_tables` from key presence alone —
`tables = some []` yields `has_tables = true` with `table_count = 0` —
whereas `create_ai_training_format` additionally requires the list to be
non-empty and reports false on the same record. -/
theorem get_statistics_has_tables_key_presence (r : ExtractionRecord) :
    (getStatistics r).has_tables = r.tables.isSome ∧
    (getStatistics r).table_count = (r.tables.getD []).length ∧
    (getStatistics { r with tables := some [] }).has_tables = true ∧
    (getStatistics { r with tables := some [] }).table_count = 0 ∧
    (createAiTrainingFormat { r with tables := some [] }).features.has_tables = false :=
  ⟨rfl, rfl, rfl, rfl, rfl⟩

theorem success_add_fail (files : List BatchEntry) :
    successCount files + failCount files = files.length := by
  induction files with
  | nil => rfl
  | cons f fs ih =>
    unfold successCount failCount at *
    cases h : f.2.2 with
    | none => simp [List.filter_cons, h]; omega
    | some v => simp [List.filter_cons, h]; omega

theorem runBatchDir_eq (files : List BatchEntry) :
    ∀ dir0, runBatchDir dir0 files = dir0 ++ files.filterMap (fun f => f.2.2) := by
  induction files with
  | nil => intro dir0; simp [runBatchDir]
  | cons f fs ih =>
    intro dir0
    cases h : f.2.2 with
    | none => simp [runBatchDir, h, List.filterMap_cons]; simpa [runBatchDir] using ih dir0
    | some p =>
      simp only [runBatchDir, List.foldl_cons, h, List.filterMap_cons]
      simpa [runBatchDir, List.append_assoc] using ih (dir0 ++ [p])

/-- C3 (amended): the batch loop processes every uploaded file (one detail
line per file, in order), counts `successful = N - M` and `failed = M` when
`M` of the `N` files fail, and produces an archive path exactly when at
least one file succeeded.  The archive snapshots the persistent output
directory, so it holds this batch's successful artifacts together with
whatever the directory already contained; outputs of exactly the
successful files only when the directory starts empty. -/
theorem process_batch_tally (dir0 : List String) (files : List BatchEntry) :
    successCount files = files.length - failCount files ∧
    successCount files + failCount files = files.length ∧
    (batchResults files).length = files.length ∧
    ((processBatch files).2.isSome ↔ 0 < successCount files) ∧
    runBatchDir dir0 files = dir0 ++ files.filterMap (fun f => f.2.2) ∧
    runBatchDir [] files = files.filterMap (fun f => f.2.2) ∧
    batchArchive dir0 files =
      (if 0 < successCount files then
        some (dir0 ++ files.filterMap (fun f => f.2.2))
       else none) := by
  have hsum := success_add_fail files
  refine ⟨by omega, hsum, by simp [batchResults], ?_, runBatchDir_eq files dir0,
    by simpa using runBatchDir_eq files [], ?_⟩
  · cases files with
    | nil =>
      simp [processBatch, successCount]
    | cons f fs =>
      by_cases h : 0 < successCount (f :: fs)
      · simp [processBatch, h]
      · simp [processBatch, h]
  · cases files with
    | nil => simp [batchArchive, successCount]
    | cons f fs =>
      by_cases h : 0 < successCount (f :: fs) <;>
        simp [batchArchive, h, runBatchDir_eq]

/-- C3 (counterexample): the claim's "archive contains outputs only for the
successful files" fails — the output directory is persistent and the zip
snapshots all of it, so a stale artifact from an earlier run ends up in the
archive even though it is no output of this batch. -/
theorem batch_archive_keeps_stale_artifacts :
    batchArchive ["output/stale_converted.json"]
        [("a.txt", ("ok", some "output/a_converted.json"))] =
      some ["output/stale_converted.json", "output/a_converted.json"] ∧
    "output/stale_converted.json" ∉
      (([("a.txt", ("ok", some "output/a_converted.json"))] : List BatchEntry).filterMap
        (fun f => f.2.2)) :=
  ⟨rfl, by decide⟩

/-- C8: for every input dictionary and root name, `to_xml` emits exactly
the `<?xml version="1.0" encoding="UTF-8"?>` declaration first, followed by
a single root element with the given tag enclosing the remaining output;
the default root name is `"document"`. -/
theorem to_xml_declaration_and_root (d : XDict) (root : String) :
    (∃ body, toXml d root =
      xmlDecl ++ "\n" ++ "<" ++ root ++ ">\n" ++ body ++ "</" ++ root ++ ">") ∧
    xmlDecl = "<?xml version=\"1.0\" encoding=\"UTF-8\"?>" ∧
    toXml d = toXml d "document" :=
  ⟨⟨dictToXmlBody d, rfl⟩, rfl, rfl⟩

/-- C2: `validate_file` checks existence, extension (lower-cased, against
the supported table), oversize, emptiness in that order with the first
failing rule determining the result and message; for an existing file with
a supported extension it accepts exactly the sizes `0 < n ≤ 50*1024*1024`,
the 50 MiB boundary included. -/
theorem validate_file_spec (fs : String → Option Nat) (p : String) (n : Nat)
    (label : String) (hn : fs p = some n)
    (hl : lookupExt (pyLowerStr (splitextExt p)) = some label) :
    ((validateFile fs p).1 = true ↔ (0 < n ∧ n ≤ maxFileSize)) ∧
    (maxFileSize < n → validateFile fs p = (false, ValidationMsg.fileTooLarge n)) ∧
    (n = 0 → validateFile fs p = (false, ValidationMsg.fileIsEmpty)) ∧
    (0 < n → n ≤ maxFileSize → validateFile fs p = (true, ValidationMsg.valid label)) ∧
    (∀ q, fs q = none → validateFile fs q = (false, ValidationMsg.fileDoesNotExist)) ∧
    (∀ q m, fs q = some m → lookupExt (pyLowerStr (splitextExt q)) = none →
      validateFile fs q = (false,
        ValidationMsg.unsupportedFileType (pyLowerStr (splitextExt q)))) := by
  refine ⟨?_, ?_, ?_, ?_, ?_, ?_⟩
  · simp only [validateFile, hn, hl]
    split_ifs with h1 h2
    · simp only [Bool.false_eq_true, false_iff]
      omega
    · simp only [Bool.false_eq_true, false_iff]
      omega
    · simp only [true_iff]
      omega
  · intro h
    simp [validateFile, hn, hl, Nat.lt_iff_add_one_le.mp h, Nat.not_lt.mpr]
    omega
  · intro h
    subst h
    simp [validateFile, hn, hl, maxFileSize]
  · intro h1 h2
    have hgt : ¬(n > maxFileSize) := by omega
    have hz : ¬(n = 0) := by omega
    simp [validateFile, hn, hl, hgt, hz]
  · intro q hq
    simp [validateFile, hq]
  · intro q m hq hlq
    simp [validateFile, hq, hlq]

/-- Witness for C2 at the byte-exact 50 MiB boundary, via a case-changed
extension (`.PDF`) to exercise the case-insensitive lookup. -/
theorem validate_file_spec_witness :
    ((fun q => if q = "data.PDF" then some 52428800 else none) "data.PDF"
        = some 52428800) ∧
    lookupExt (pyLowerStr (splitextExt "data.PDF")) = some "PDF Document" ∧
    (((validateFile (fun q => if q = "data.PDF" then some 52428800 else none)
        "data.PDF").1 = true) ↔ (0 < 52428800 ∧ 52428800 ≤ maxFileSize)) :=
  ⟨by decide, by decide,
    (validate_file_spec (fun q => if q = "data.PDF" then some 52428800 else none)
      "data.PDF" 52428800 "PDF Document" (by decide) (by decide)).1⟩

theorem writeRowsAcc_ok (fn : List String) :
    ∀ rows : List CsvRow, (∀ row ∈ rows, ∀ k ∈ rowKeys row, k ∈ fn) →
      writeRowsAcc fn rows =
        (rows.map (fun row => fn.map (fun k =>
          match lookupRow row k with
          | some v => cellStr (cleanCell v)
          | none => "")), none) := by
  intro rows
  induction rows with
  | nil => intro _; rfl
  | cons row rs ih =>
    intro hall
    have hsub : ∀ k ∈ rowKeys row, k ∈ fn := hall row (List.mem_cons_self _ _)
    have hextra : (rowKeys row).filter (fun k => !fn.contains k) = [] := by
      apply List.filter_eq_nil_iff.mpr
      intro k hk
      simp only [Bool.not_eq_true', Bool.not_eq_false]
      exact List.elem_iff.mpr (hsub k hk)
    have hrest := ih (fun r2 hr2 => hall r2 (List.mem_cons_of_mem _ hr2))
    simp only [writeRowsAcc, hextra, List.isEmpty_nil, if_pos, hrest, List.map_cons]

/-- C7 (amended): `to_csv` on an empty row sequence returns the
no-data message and writes nothing; on a non-empty sequence whose rows use
only keys of the first row it writes a CSV whose header is the first row's
key list, with nested mapping/sequence cells replaced by their JSON text
and missing keys filled with the empty string, and returns the output
path. -/
theorem to_csv_spec (r0 : CsvRow) (rest : List CsvRow) (path : String)
    (hk : ∀ row ∈ r0 :: rest, ∀ k ∈ rowKeys row, k ∈ rowKeys r0) :
    toCsv (r0 :: rest) path =
      (CsvReturn.outPath path,
       some { header := rowKeys r0,
              body := (r0 :: rest).map (fun row => (rowKeys r0).map (fun k =>
                match lookupRow row k with
                | some v => cellStr (cleanCell v)
                | none => "")) }) ∧
    toCsv [] path = (CsvReturn.noData, none) := by
  refine ⟨?_, rfl⟩
  have hw := writeRowsAcc_ok (rowKeys r0) (r0 :: rest) hk
  simp only [toCsv, hw]

/-- Witness for the amended C7 theorem, including a nested cell value. -/
theorem to_csv_spec_witness :
    (∀ row ∈ ([[("a", JVal.i 1), ("b", JVal.obj [("x", JVal.i 2)])]] : List CsvRow),
      ∀ k ∈ rowKeys row, k ∈ rowKeys [("a", JVal.i 1), ("b", JVal.obj [("x", JVal.i 2)])]) ∧
    toCsv [[("a", JVal.i 1), ("b", JVal.obj [("x", JVal.i 2)])]] "out.csv" =
      (CsvReturn.outPath "out.csv",
       some { header := rowKeys [("a", JVal.i 1), ("b", JVal.obj [("x", JVal.i 2)])],
              body := ([[("a", JVal.i 1), ("b", JVal.obj [("x", JVal.i 2)])]] :
                  List CsvRow).map
                (fun row => (rowKeys [("a", JVal.i 1),
                    ("b", JVal.obj [("x", JVal.i 2)])]).map (fun k =>
                  match lookupRow row k with
                  | some v => cellStr (cleanCell v)
                  | none => "")) }) :=
  ⟨by decide,
    (to_csv_spec [("a", JVal.i 1), ("b", JVal.obj [("x", JVal.i 2)])] [] "out.csv"
      (by decide)).1⟩

/-- C7 (counterexample): the claim as stated is false for rows whose later
entries carry keys outside the first row's key list — `csv.DictWriter`
raises, `to_csv` catches and returns the error string, not the output
path. -/
theorem to_csv_extra_key_failure :
    ([[("a", JVal.s "1")], [("a", JVal.s "1"), ("b", JVal.s "2")]] : List CsvRow).length
        = 2 ∧
    (toCsv [[("a", JVal.s "1")], [("a", JVal.s "1"), ("b", JVal.s "2")]] "out.csv").1
      ≠ CsvReturn.outPath "out.csv" :=
  ⟨rfl, by decide⟩

/-- C10: `to_xml` interpolates scalar values verbatim — no XML escaping —
so markup characters in values reach element content unescaped (making the
output not well-formed XML there), and the only tag-name sanitization is
replacing spaces and hyphens in keys with underscores. -/
theorem to_xml_no_escaping :
    toXml [("note", XVal.scalar "x < y & z > w")] "document" =
      "<?xml version=\"1.0\" encoding=\"UTF-8\"?>\n<document>\n  <note>x < y & z > w</note>\n</document>" ∧
    (∀ k s, dictToXmlBody [(k, XVal.scalar s)] =
      "  <" ++ safeKey k ++ ">" ++ s ++ "</" ++ safeKey k ++ ">\n") ∧
    safeKey "my key-1" = "my_key_1" ∧
    safeKey "a<b&c>" = "a<b&c>" := by
  refine ⟨by decide, ?_, by decide, by decide⟩
  intro k s
  rfl
